import Mathlib

/-!
Shallow embedding of the flow-routing core of the sampled WhiteboxTools
hydrology code (D8 flow direction and accumulation, depth-in-sink
priority flood, downslope distance to stream), with machine `f64`
arithmetic modelled over `ℚ`.  Grids are functions `ℤ → ℤ → ℚ` together
with dimensions and a nodata sentinel; reads outside the bounds return
the nodata sentinel, exactly as Whitebox rasters do.
-/

/-- A raster grid: `rows × cols` cells of `f64` (modelled as `ℚ`) plus the
nodata sentinel.  `z` is the backing store; all reads go through `Grid.get`,
which returns `nodata` out of bounds, mirroring Whitebox raster indexing. -/
structure Grid where
  rows : ℤ
  cols : ℤ
  z : ℤ → ℤ → ℚ
  nodata : ℚ

/-- In-bounds test for a cell coordinate. -/
def Grid.inB (g : Grid) (r c : ℤ) : Prop :=
  0 ≤ r ∧ r < g.rows ∧ 0 ≤ c ∧ c < g.cols

instance (g : Grid) (r c : ℤ) : Decidable (g.inB r c) := by
  unfold Grid.inB; infer_instance

/-- `input[(row, col)]`: the raster read used throughout the tools; returns
the nodata sentinel for any out-of-bounds coordinate. -/
def Grid.get (g : Grid) (r c : ℤ) : ℚ :=
  if g.inB r c then g.z r c else g.nodata

/-- A cell is valid when it is in bounds and holds a non-nodata elevation. -/
def Grid.valid (g : Grid) (r c : ℤ) : Prop :=
  g.inB r c ∧ g.z r c ≠ g.nodata

instance (g : Grid) (r c : ℤ) : Decidable (g.valid r c) := by
  unfold Grid.valid; infer_instance

/-- Column offsets of the 8 neighbours, in the fixed scan order of the code:
`dx = [1, 1, 1, 0, -1, -1, -1, 0]`. -/
def dxT (i : ℕ) : ℤ := [1, 1, 1, 0, -1, -1, -1, 0].getD i 0

/-- Row offsets of the 8 neighbours, in the fixed scan order of the code:
`dy = [-1, 0, 1, 1, 1, 0, -1, -1]`. -/
def dyT (i : ℕ) : ℤ := [-1, 0, 1, 1, 1, 0, -1, -1].getD i 0

/-- Distance to neighbour `i`:
`grid_lengths = [diag, dx, diag, dy, diag, dx, diag, dy]`. -/
def gridLen (csx csy diag : ℚ) (i : ℕ) : ℚ :=
  [diag, csx, diag, csy, diag, csx, diag, csy].getD i 1

/-- `inflowing_vals = [4, 5, 6, 7, 0, 1, 2, 3]`: the direction code a
neighbour at scan index `i` must carry in order to flow into the centre. -/
def inflowT (i : ℕ) : ℤ := [4, 5, 6, 7, 0, 1, 2, 3].getD i 0

/-- State of the per-cell 8-neighbour scan of the D8 direction resolver:
the current best direction `dir`, the running maximum slope (`none` models
the initial `f64::MIN`, which only positive slopes ever replace), and the
`neighbouring_nodata` flag. -/
structure ScanState where
  dir : ℕ
  maxSlope : Option ℚ
  nbNodata : Bool
  deriving DecidableEq

/-- `slope > max_slope && slope > 0` of the source, where `max_slope` starts
at `f64::MIN` (modelled by `none`, which any positive slope beats). -/
def slopeBeats (m : Option ℚ) (s : ℚ) : Bool :=
  match m with
  | none => decide (0 < s)
  | some m0 => decide (m0 < s) && decide (0 < s)

/-- One iteration of the neighbour scan at index `i`
(`d8_flow_accum.rs` lines 294-305). -/
def scanStep (g : Grid) (csx csy diag : ℚ) (r c : ℤ) (s : ScanState) (i : ℕ) :
    ScanState :=
  let zn := g.get (r + dyT i) (c + dxT i)
  if zn ≠ g.nodata then
    let slope := (g.get r c - zn) / gridLen csx csy diag i
    if slopeBeats s.maxSlope slope then
      { dir := i, maxSlope := some slope, nbNodata := s.nbNodata }
    else s
  else { s with nbNodata := true }

/-- The full 8-neighbour scan for one valid cell, starting from
`dir = 0`, `max_slope = f64::MIN`, `neighbouring_nodata = false`. -/
def d8ScanCell (g : Grid) (csx csy diag : ℚ) (r c : ℤ) : ScanState :=
  (List.range 8).foldl (scanStep g csx csy diag r c) ⟨0, none, false⟩

/-- Direction value stored for a cell: the winning scan index if some
neighbour had positive slope (`max_slope >= 0` in the source, reachable
only through positive updates), else `-1`; nodata cells store `-1`. -/
def flowDir (g : Grid) (csx csy diag : ℚ) (r c : ℤ) : ℤ :=
  if g.get r c = g.nodata then -1
  else
    let s := d8ScanCell g csx csy diag r c
    if s.maxSlope.isSome then (s.dir : ℤ) else -1

/-- Whether the scan of one valid cell raises the interior-pit flag:
no positive-slope neighbour and no nodata neighbour. -/
def cellRaisesPit (g : Grid) (csx csy diag : ℚ) (r c : ℤ) : Bool :=
  let s := d8ScanCell g csx csy diag r c
  !s.maxSlope.isSome && !s.nbNodata

/-- Row-major list of all in-bounds cell coordinates of a grid. -/
def cellList (g : Grid) : List (ℤ × ℤ) :=
  (List.range g.rows.toNat).flatMap fun r : ℕ =>
    (List.range g.cols.toNat).map fun c : ℕ => (((r : ℕ) : ℤ), ((c : ℕ) : ℤ))

/-- The OR-reduced `interior_pit_found` diagnostic of the direction pass. -/
def interiorPitFound (g : Grid) (csx csy diag : ℚ) : Bool :=
  (cellList g).any fun p =>
    decide (g.get p.1 p.2 ≠ g.nodata) && cellRaisesPit g csx csy diag p.1 p.2

/-- Neighbour `i` of the cell `(r, c)` is valid (in bounds and non-nodata,
as seen through the clamped raster read). -/
def nbValid (g : Grid) (r c : ℤ) (i : ℕ) : Prop :=
  g.get (r + dyT i) (c + dxT i) ≠ g.nodata

instance (g : Grid) (r c : ℤ) (i : ℕ) : Decidable (nbValid g r c i) := by
  unfold nbValid; infer_instance

/-- `slope = (z - z_n) / grid_lengths[i]` toward neighbour `i`. -/
def slopeTo (g : Grid) (csx csy diag : ℚ) (r c : ℤ) (i : ℕ) : ℚ :=
  (g.get r c - g.get (r + dyT i) (c + dxT i)) / gridLen csx csy diag i

/-- Invariant of the direction scan after the first `n` neighbours. -/
def ScanInv (g : Grid) (csx csy diag : ℚ) (r c : ℤ) (n : ℕ) (s : ScanState) :
    Prop :=
  (s.nbNodata = true ↔ ∃ i < n, ¬ nbValid g r c i) ∧
  (s.maxSlope = none →
    ∀ i < n, nbValid g r c i → slopeTo g csx csy diag r c i ≤ 0) ∧
  (∀ m, s.maxSlope = some m →
    s.dir < n ∧ nbValid g r c s.dir ∧
    slopeTo g csx csy diag r c s.dir = m ∧ 0 < m ∧
    (∀ i < n, nbValid g r c i → slopeTo g csx csy diag r c i ≤ m) ∧
    (∀ i < s.dir, nbValid g r c i → slopeTo g csx csy diag r c i < m))

lemma scanInv_zero (g : Grid) (csx csy diag : ℚ) (r c : ℤ) :
    ScanInv g csx csy diag r c 0 ⟨0, none, false⟩ := by
  refine ⟨by simp, ?_, ?_⟩
  · intro _ i hi; omega
  · intro m hm; simp at hm

lemma slopeBeats_true {m : Option ℚ} {s : ℚ} (h : slopeBeats m s = true) :
    0 < s ∧ ∀ m0, m = some m0 → m0 < s := by
  cases m with
  | none => simp [slopeBeats] at h; exact ⟨h, by simp⟩
  | some m0 =>
    simp [slopeBeats] at h
    exact ⟨h.2, fun m1 hm1 => by injection hm1 with h'; exact h' ▸ h.1⟩

lemma slopeBeats_false {m : Option ℚ} {s : ℚ} (h : ¬ slopeBeats m s = true) :
    s ≤ 0 ∨ ∃ m0, m = some m0 ∧ s ≤ m0 := by
  cases m with
  | none => simp [slopeBeats] at h; exact Or.inl h
  | some m0 =>
    simp [slopeBeats] at h
    by_cases hq : m0 < s
    · exact Or.inl (h hq)
    · exact Or.inr ⟨m0, rfl, le_of_not_lt hq⟩

lemma scanInv_step (g : Grid) (csx csy diag : ℚ) (r c : ℤ) (n : ℕ)
    (s : ScanState) (h : ScanInv g csx csy diag r c n s) :
    ScanInv g csx csy diag r c (n + 1) (scanStep g csx csy diag r c s n) := by
  obtain ⟨h1, h2, h3⟩ := h
  have hslope : slopeTo g csx csy diag r c n
      = (g.get r c - g.get (r + dyT n) (c + dxT n)) / gridLen csx csy diag n := rfl
  simp only [scanStep]
  split_ifs with hv hb
  · -- valid neighbour, slope beats the running maximum: update
    have hvn : nbValid g r c n := hv
    obtain ⟨hpos0, hbeat⟩ := slopeBeats_true hb
    have hpos : 0 < slopeTo g csx csy diag r c n := by rw [hslope]; exact hpos0
    refine ⟨?_, ?_, ?_⟩
    · show s.nbNodata = true ↔ _
      constructor
      · intro hh
        obtain ⟨i, hi, hnv⟩ := h1.mp hh
        exact ⟨i, by omega, hnv⟩
      · rintro ⟨i, hi, hnv⟩
        rcases Nat.lt_succ_iff_lt_or_eq.mp hi with h' | h'
        · exact h1.mpr ⟨i, h', hnv⟩
        · exact absurd hvn (h' ▸ hnv)
    · intro hh; cases hh
    · intro m hm
      have hm' : m = (g.get r c - g.get (r + dyT n) (c + dxT n)) / gridLen csx csy diag n := by
        cases hm; rfl
      refine ⟨Nat.lt_succ_self n, hvn, by rw [hslope, hm'], by rw [hm', ← hslope]; exact hpos,
        ?_, ?_⟩
      · intro i hi hnvi
        rcases Nat.lt_succ_iff_lt_or_eq.mp hi with h' | h'
        · cases hms : s.maxSlope with
          | none =>
            have := h2 hms i h' hnvi
            rw [hm', ← hslope]
            exact le_of_lt (lt_of_le_of_lt this hpos)
          | some m0 =>
            have hle := (h3 m0 hms).2.2.2.2.1 i h' hnvi
            have hlt : m0 < slopeTo g csx csy diag r c n := by
              rw [hslope]; exact hbeat m0 hms
            rw [hm', ← hslope]
            exact le_of_lt (lt_of_le_of_lt hle hlt)
        · subst h'; rw [hm', ← hslope]
      · intro i hi hnvi
        cases hms : s.maxSlope with
        | none =>
          have := h2 hms i hi hnvi
          rw [hm', ← hslope]
          exact lt_of_le_of_lt this hpos
        | some m0 =>
          have hle := (h3 m0 hms).2.2.2.2.1 i hi hnvi
          have hlt : m0 < slopeTo g csx csy diag r c n := by
            rw [hslope]; exact hbeat m0 hms
          rw [hm', ← hslope]
          exact lt_of_le_of_lt hle hlt
  · -- valid neighbour, slope does not beat: state unchanged
    have hvn : nbValid g r c n := hv
    have hnb := slopeBeats_false hb
    refine ⟨?_, ?_, ?_⟩
    · constructor
      · intro hh
        obtain ⟨i, hi, hnv⟩ := h1.mp hh
        exact ⟨i, by omega, hnv⟩
      · rintro ⟨i, hi, hnv⟩
        rcases Nat.lt_succ_iff_lt_or_eq.mp hi with h' | h'
        · exact h1.mpr ⟨i, h', hnv⟩
        · exact absurd hvn (h' ▸ hnv)
    · intro hnone i hi hnvi
      rcases Nat.lt_succ_iff_lt_or_eq.mp hi with h' | h'
      · exact h2 hnone i h' hnvi
      · subst h'
        rcases hnb with h' | ⟨m0, hm0, _⟩
        · rwa [hslope]
        · rw [hnone] at hm0; cases hm0
    · intro m hm
      obtain ⟨hd, hnv, hsl', hpos, hall, hfirst⟩ := h3 m hm
      refine ⟨by omega, hnv, hsl', hpos, ?_, hfirst⟩
      intro i hi hnvi
      rcases Nat.lt_succ_iff_lt_or_eq.mp hi with h' | h'
      · exact hall i h' hnvi
      · subst h'
        rcases hnb with h' | ⟨m0, hm0, hle⟩
        · rw [hslope]; exact le_of_lt (lt_of_le_of_lt h' hpos)
        · rw [hm] at hm0; injection hm0 with h''
          rw [hslope]; exact h'' ▸ hle
  · -- nodata neighbour: only the flag changes
    push_neg at hv
    refine ⟨?_, ?_, ?_⟩
    · exact ⟨fun _ => ⟨n, Nat.lt_succ_self n, by simp [nbValid, hv]⟩, fun _ => rfl⟩
    · intro hnone i hi hnvi
      rcases Nat.lt_succ_iff_lt_or_eq.mp hi with h' | h'
      · exact h2 hnone i h' hnvi
      · subst h'; exact absurd hnvi (by simp [nbValid, hv])
    · intro m hm
      obtain ⟨hd, hnv, hsl', hpos, hall, hfirst⟩ := h3 m hm
      refine ⟨Nat.lt_succ_of_lt hd, hnv, hsl', hpos, ?_, hfirst⟩
      intro i hi hnvi
      rcases Nat.lt_succ_iff_lt_or_eq.mp hi with h' | h'
      · exact hall i h' hnvi
      · subst h'; exact absurd hnvi (by simp [nbValid, hv])

lemma scanInv_range (g : Grid) (csx csy diag : ℚ) (r c : ℤ) (n : ℕ) :
    ScanInv g csx csy diag r c n
      ((List.range n).foldl (scanStep g csx csy diag r c) ⟨0, none, false⟩) := by
  induction n with
  | zero => exact scanInv_zero g csx csy diag r c
  | succ k ih =>
    rw [List.range_succ, List.foldl_append, List.foldl_cons, List.foldl_nil]
    exact scanInv_step g csx csy diag r c k _ ih

lemma d8ScanCell_inv (g : Grid) (csx csy diag : ℚ) (r c : ℤ) :
    ScanInv g csx csy diag r c 8 (d8ScanCell g csx csy diag r c) :=
  scanInv_range g csx csy diag r c 8

lemma Grid.get_ne_iff (g : Grid) (r c : ℤ) :
    g.get r c ≠ g.nodata ↔ g.valid r c := by
  unfold Grid.get Grid.valid
  split_ifs with h
  · constructor
    · intro hz; exact ⟨h, hz⟩
    · intro hv; exact hv.2
  · constructor
    · intro hz; exact absurd rfl hz
    · intro hv; exact absurd hv.1 h

lemma gridLen_pos {csx csy diag : ℚ} (hx : 0 < csx) (hy : 0 < csy)
    (hd : 0 < diag) {i : ℕ} (hi : i < 8) : 0 < gridLen csx csy diag i := by
  interval_cases i <;> simpa [gridLen]

/-- Spec-side contract of the D8 Direction Resolver, stated from the spec's
words for comparison with the implementation: the assigned value is either a
direction code `0-7` targeting a valid neighbour of strictly lower elevation
that achieves the maximum positive downhill slope among the 8 valid
neighbours — the first-encountered direction in the fixed scan order winning
ties — or it is `-1`, which happens exactly when no valid neighbour has a
positive slope. -/
def D8DirectionSpec (g : Grid) (csx csy diag : ℚ) (r c : ℤ) (d : ℤ) : Prop :=
  (d = -1 ∨ ∃ k : ℕ, k < 8 ∧ d = (k : ℤ) ∧
    nbValid g r c k ∧
    g.get (r + dyT k) (c + dxT k) < g.get r c ∧
    0 < slopeTo g csx csy diag r c k ∧
    (∀ i < 8, nbValid g r c i →
      slopeTo g csx csy diag r c i ≤ slopeTo g csx csy diag r c k) ∧
    (∀ i < k, nbValid g r c i →
      slopeTo g csx csy diag r c i < slopeTo g csx csy diag r c k)) ∧
  (d = -1 ↔ ∀ i < 8, nbValid g r c i → slopeTo g csx csy diag r c i ≤ 0)

/-- The implementation-side resolver satisfies the spec-side contract;
stated as a reusable lemma. -/
lemma flowDir_resolves (g : Grid) (csx csy diag : ℚ)
    (hx : 0 < csx) (hy : 0 < csy) (hd : 0 < diag) (r c : ℤ)
    (hv : g.valid r c) :
    D8DirectionSpec g csx csy diag r c (flowDir g csx csy diag r c) := by
  have hne : g.get r c ≠ g.nodata := (Grid.get_ne_iff g r c).mpr hv
  obtain ⟨h1, h2, h3⟩ := d8ScanCell_inv g csx csy diag r c
  unfold flowDir
  rw [if_neg hne]
  cases hms : (d8ScanCell g csx csy diag r c).maxSlope with
  | none =>
    simp only [hms, Option.isSome_none, Bool.false_eq_true, if_false]
    refine ⟨Or.inl rfl, ?_⟩
    constructor
    · intro _; exact h2 hms
    · intro _; rfl
  | some m =>
    obtain ⟨hlt, hnv, hsl, hpos, hall, hfirst⟩ := h3 m hms
    simp only [hms, Option.isSome_some, if_true]
    constructor
    · refine Or.inr ⟨(d8ScanCell g csx csy diag r c).dir, hlt, rfl, hnv, ?_, ?_, ?_, ?_⟩
      · have hl : 0 < gridLen csx csy diag (d8ScanCell g csx csy diag r c).dir :=
          gridLen_pos hx hy hd hlt
        have : 0 < slopeTo g csx csy diag r c (d8ScanCell g csx csy diag r c).dir := by
          rw [hsl]; exact hpos
        unfold slopeTo at this
        have hnum := (div_pos_iff_of_pos_right hl).mp this
        linarith
      · rw [hsl]; exact hpos
      · intro i hi hnvi; rw [hsl]; exact hall i hi hnvi
      · intro i hi hnvi; rw [hsl]; exact hfirst i hi hnvi
    · constructor
      · intro h; omega
      · intro hle
        have := hle _ hlt hnv
        rw [hsl] at this
        exact absurd hpos (not_lt.mpr this)

/-- **C1.** For every valid cell of the elevation grid, the D8 Direction
Resolver assigns a direction code 0-7 only to a neighbour with strictly
lower elevation achieving the maximum positive downhill slope (slope =
(z - z_neighbor) / neighbour distance) among its 8 valid neighbours, the
first-encountered direction in the fixed scan order winning ties, and it
assigns -1 exactly when no valid neighbour has positive slope. -/
theorem c1_d8_direction_resolver (g : Grid) (csx csy diag : ℚ)
    (hx : 0 < csx) (hy : 0 < csy) (hd : 0 < diag) (r c : ℤ)
    (hv : g.valid r c) :
    D8DirectionSpec g csx csy diag r c (flowDir g csx csy diag r c) :=
  flowDir_resolves g csx csy diag hx hy hd r c hv

/-- A concrete 2×2 grid for the C1 witness. -/
def gridW : Grid where
  rows := 2
  cols := 2
  z := fun r c =>
    if r = 0 ∧ c = 0 then 5 else if r = 0 ∧ c = 1 then 4
    else if r = 1 ∧ c = 0 then 3 else 2
  nodata := -999

/-- Witness for C1 at a concrete grid and cell. -/
theorem c1_d8_direction_resolver_witness :
    D8DirectionSpec gridW 1 1 (3/2) 0 0 (flowDir gridW 1 1 (3/2) 0 0) :=
  c1_d8_direction_resolver gridW 1 1 (3/2) (by norm_num) (by norm_num)
    (by norm_num) 0 0 (by decide)

/-- Any non-negative direction the resolver assigns targets a valid cell of
strictly lower elevation (the acyclicity source for the accumulator). -/
lemma flowDir_lower (g : Grid) (csx csy diag : ℚ)
    (hx : 0 < csx) (hy : 0 < csy) (hd : 0 < diag) (r c : ℤ) (k : ℕ)
    (hk : flowDir g csx csy diag r c = (k : ℤ)) :
    k < 8 ∧ g.valid r c ∧ g.valid (r + dyT k) (c + dxT k) ∧
      g.get (r + dyT k) (c + dxT k) < g.get r c := by
  have hne : g.get r c ≠ g.nodata := by
    intro hcontra
    unfold flowDir at hk
    rw [if_pos hcontra] at hk
    omega
  have hv : g.valid r c := (Grid.get_ne_iff g r c).mp hne
  have hspec := flowDir_resolves g csx csy diag hx hy hd r c hv
  obtain ⟨hsp1, _⟩ := hspec
  rcases hsp1 with h' | ⟨k', hk', hd', hnv', hlow', _, _, _⟩
  · rw [h'] at hk; omega
  · rw [hd'] at hk
    have hkk : k' = k := by exact_mod_cast hk
    subst hkk
    exact ⟨hk', hv, (Grid.get_ne_iff g _ _).mp hnv', hlow'⟩

lemma mem_cellList {g : Grid} {r c : ℤ} (h : g.inB r c) : (r, c) ∈ cellList g := by
  obtain ⟨hr0, hr1, hc0, hc1⟩ := h
  have hr : r.toNat ∈ List.range g.rows.toNat := by
    rw [List.mem_range]; omega
  have hc : c.toNat ∈ List.range g.cols.toNat := by
    rw [List.mem_range]; omega
  have hmem : (((r.toNat : ℕ) : ℤ), ((c.toNat : ℕ) : ℤ)) ∈ cellList g := by
    unfold cellList
    rw [List.mem_flatMap]
    refine ⟨r.toNat, hr, ?_⟩
    exact List.mem_map_of_mem
      (fun c : ℕ => (((r.toNat : ℕ) : ℤ), ((c : ℕ) : ℤ))) hc
  have hr' : ((r.toNat : ℕ) : ℤ) = r := by omega
  have hc' : ((c.toNat : ℕ) : ℤ) = c := by omega
  rwa [hr', hc'] at hmem

lemma cellList_mem_inB {g : Grid} {p : ℤ × ℤ} (h : p ∈ cellList g) :
    g.inB p.1 p.2 := by
  obtain ⟨r, c⟩ := p
  simp only [cellList, List.mem_flatMap, List.mem_map, List.mem_range] at h
  obtain ⟨a, ha, b, hb, hp⟩ := h
  rw [Prod.mk.injEq] at hp
  obtain ⟨h1, h2⟩ := hp
  subst h1; subst h2
  unfold Grid.inB
  constructor
  · omega
  constructor
  · omega
  constructor
  · omega
  · omega

/-- **C7.** For every input grid containing a pit cell (direction −1) none
of whose 8 neighbours is nodata (including the out-of-bounds virtual
frame), the run's final `interior_pit_found` diagnostic is true. -/
theorem c7_interior_pit_flag (g : Grid) (csx csy diag : ℚ) (r c : ℤ)
    (hv : g.valid r c) (hpit : flowDir g csx csy diag r c = -1)
    (hnb : ∀ i < 8, g.get (r + dyT i) (c + dxT i) ≠ g.nodata) :
    interiorPitFound g csx csy diag = true := by
  have hne : g.get r c ≠ g.nodata := (Grid.get_ne_iff g r c).mpr hv
  obtain ⟨h1, h2, h3⟩ := d8ScanCell_inv g csx csy diag r c
  have hnone : (d8ScanCell g csx csy diag r c).maxSlope = none := by
    cases hms : (d8ScanCell g csx csy diag r c).maxSlope with
    | none => rfl
    | some m =>
      exfalso
      unfold flowDir at hpit
      rw [if_neg hne] at hpit
      simp only [hms, Option.isSome_some, if_true] at hpit
      omega
  have hflag : (d8ScanCell g csx csy diag r c).nbNodata = false := by
    cases hfl : (d8ScanCell g csx csy diag r c).nbNodata with
    | false => rfl
    | true =>
      obtain ⟨i, hi, hnv⟩ := h1.mp hfl
      exact absurd (hnb i hi) hnv
  unfold interiorPitFound
  rw [List.any_eq_true]
  refine ⟨(r, c), mem_cellList hv.1, ?_⟩
  show (decide (g.get r c ≠ g.nodata) && cellRaisesPit g csx csy diag r c) = true
  rw [Bool.and_eq_true, decide_eq_true_iff]
  refine ⟨hne, ?_⟩
  show (!(d8ScanCell g csx csy diag r c).maxSlope.isSome &&
    !(d8ScanCell g csx csy diag r c).nbNodata) = true
  rw [hnone, hflag]
  rfl

/-- A 3×3 grid whose centre is strictly below its 8 valid neighbours. -/
def gridP : Grid where
  rows := 3
  cols := 3
  z := fun r c => if r = 1 ∧ c = 1 then 0 else 1
  nodata := -999

/-- Witness for C7 at a concrete interior pit. -/
theorem c7_interior_pit_flag_witness :
    interiorPitFound gridP 1 1 (3/2) = true :=
  c7_interior_pit_flag gridP 1 1 (3/2) 1 1 (by decide)
    (by with_unfolding_all decide) (by with_unfolding_all decide)

/-- The row vector of direction values a worker computes and sends for one
row (`data` in the source: `-1` default, per-cell scan result for valid
cells). -/
def dirRowData (g : Grid) (csx csy diag : ℚ) (row : ℤ) : List ℤ :=
  (List.range g.cols.toNat).map fun c : ℕ => flowDir g csx csy diag row ((c : ℕ) : ℤ)

/-- The multiset of `(row, data)` messages produced by `P` round-robin
workers: worker `tid` handles exactly the rows with `row % P == tid`. -/
def workerMsgs (g : Grid) (csx csy diag : ℚ) (P : ℕ) : List (ℤ × List ℤ) :=
  (List.range P).flatMap fun tid : ℕ =>
    ((List.range g.rows.toNat).filter fun r : ℕ => r % P = tid).map
      fun r : ℕ => (((r : ℕ) : ℤ), dirRowData g csx csy diag ((r : ℕ) : ℤ))

/-- `flow_dir.set_row_data(row, data)`: overwrite one row of the assembled
direction grid with a received row vector. -/
def setRowData (fd : ℤ → ℤ → ℤ) (m : ℤ × List ℤ) : ℤ → ℤ → ℤ :=
  fun r c =>
    if r = m.1 ∧ 0 ≤ c ∧ c < (m.2.length : ℤ) then m.2.getD c.toNat (-1)
    else fd r c

/-- The coordinator's receive loop: fold the messages, in arrival order,
into a direction grid initialised with the `Array2D` fill value `-1`. -/
def assembleDir (ms : List (ℤ × List ℤ)) : ℤ → ℤ → ℤ :=
  ms.foldl setRowData fun _ _ => -1

lemma foldl_setRowData_not_mem (ms : List (ℤ × List ℤ)) (init : ℤ → ℤ → ℤ)
    (r c : ℤ) (h : ∀ m ∈ ms, m.1 ≠ r) :
    ms.foldl setRowData init r c = init r c := by
  induction ms generalizing init with
  | nil => rfl
  | cons m rest ih =>
    rw [List.foldl_cons, ih _ fun m' hm' => h m' (List.mem_cons_of_mem m hm')]
    unfold setRowData
    rw [if_neg]
    intro hcontra
    exact h m (List.mem_cons_self m rest) hcontra.1.symm

lemma foldl_setRowData_mem (ms : List (ℤ × List ℤ)) (init : ℤ → ℤ → ℤ)
    (r : ℤ) (v : List ℤ) (c : ℤ)
    (hnd : (ms.map Prod.fst).Nodup) (hmem : (r, v) ∈ ms) :
    ms.foldl setRowData init r c = setRowData init (r, v) r c := by
  induction ms generalizing init with
  | nil => cases hmem
  | cons m rest ih =>
    rw [List.map_cons, List.nodup_cons] at hnd
    obtain ⟨hhead, hrest⟩ := hnd
    rcases List.mem_cons.mp hmem with h' | h'
    · rw [← h']
      rw [← h'] at hhead
      rw [List.foldl_cons]
      refine foldl_setRowData_not_mem rest _ r c fun m' hm' hc => ?_
      have hmm : m'.1 ∈ rest.map Prod.fst := List.mem_map_of_mem Prod.fst hm'
      rw [hc] at hmm
      exact hhead hmm
    · have hk : m.1 ≠ r := by
        intro hc
        have hmm : (r, v).1 ∈ rest.map Prod.fst := List.mem_map_of_mem Prod.fst h'
        rw [hc] at hhead
        exact hhead hmm
      rw [List.foldl_cons, ih _ hrest h']
      unfold setRowData
      by_cases hcase : r = (r, v).1 ∧ 0 ≤ c ∧ c < ((r, v).2.length : ℤ)
      · rw [if_pos hcase, if_pos hcase]
      · rw [if_neg hcase, if_neg hcase, if_neg]
        intro hcontra
        exact hk hcontra.1.symm

lemma workerMsgs_keys_nodup (g : Grid) (csx csy diag : ℚ) (P : ℕ) :
    ((workerMsgs g csx csy diag P).map Prod.fst).Nodup := by
  unfold workerMsgs
  rw [List.map_flatMap]
  rw [List.nodup_flatMap]
  constructor
  · intro tid _
    rw [List.map_map]
    refine List.Nodup.map ?_ (List.Nodup.filter _ (List.nodup_range _))
    intro a b hab
    simp only [Function.comp_apply] at hab
    omega
  · refine (List.pairwise_lt_range _).imp ?_
    intro a b hab
    rw [Function.onFun]
    intro x hx hy
    rw [List.map_map] at hx hy
    obtain ⟨ra, hra, hxa⟩ := List.mem_map.mp hx
    obtain ⟨rb, hrb, hxb⟩ := List.mem_map.mp hy
    rw [List.mem_filter] at hra hrb
    simp only [Function.comp_apply] at hxa hxb
    have hxa' : ((ra : ℕ) : ℤ) = x := hxa
    have hxb' : ((rb : ℕ) : ℤ) = x := hxb
    have h1 : ra % P = a := by
      have := hra.2; exact_mod_cast of_decide_eq_true this
    have h2 : rb % P = b := by
      have := hrb.2; exact_mod_cast of_decide_eq_true this
    have hr : ra = rb := by omega
    subst hr
    omega

lemma mem_workerMsgs (g : Grid) (csx csy diag : ℚ) (P : ℕ) (hP : 0 < P)
    (r : ℤ) (hr0 : 0 ≤ r) (hr1 : r < g.rows) :
    (r, dirRowData g csx csy diag r) ∈ workerMsgs g csx csy diag P := by
  obtain ⟨n, rfl⟩ : ∃ n : ℕ, ((n : ℕ) : ℤ) = r := ⟨r.toNat, by omega⟩
  unfold workerMsgs
  rw [List.mem_flatMap]
  refine ⟨n % P, by rw [List.mem_range]; exact Nat.mod_lt _ hP, ?_⟩
  have hmem : n ∈ (List.range g.rows.toNat).filter
      fun x : ℕ => x % P = n % P := by
    rw [List.mem_filter, List.mem_range]
    exact ⟨by omega, by simp⟩
  exact List.mem_map_of_mem _ hmem

lemma getD_map_range {α : Type} (n : ℕ) (f : ℕ → α) (i : ℕ) (d : α)
    (h : i < n) : (((List.range n).map f).getD i d) = f i := by
  rw [List.getD_eq_getElem?_getD, List.getElem?_map, List.getElem?_range h]
  rfl

/-- Any arrival order of the row messages of any worker count assembles the
canonical direction grid. -/
lemma assembleDir_eq_flowDir (g : Grid) (csx csy diag : ℚ) (P : ℕ)
    (hP : 0 < P) (ms : List (ℤ × List ℤ))
    (hperm : ms.Perm (workerMsgs g csx csy diag P)) (r c : ℤ)
    (h : g.inB r c) :
    assembleDir ms r c = flowDir g csx csy diag r c := by
  obtain ⟨hr0, hr1, hc0, hc1⟩ := h
  have hnd : (ms.map Prod.fst).Nodup :=
    ((hperm.map Prod.fst).nodup_iff).mpr (workerMsgs_keys_nodup g csx csy diag P)
  have hmem : (r, dirRowData g csx csy diag r) ∈ ms :=
    hperm.mem_iff.mpr (mem_workerMsgs g csx csy diag P hP r hr0 hr1)
  unfold assembleDir
  rw [foldl_setRowData_mem ms _ r _ c hnd hmem]
  unfold setRowData
  have hlen : (((r, dirRowData g csx csy diag r).2.length : ℕ) : ℤ)
      = ((g.cols.toNat : ℕ) : ℤ) := by
    show ((dirRowData g csx csy diag r).length : ℤ) = _
    unfold dirRowData
    rw [List.length_map, List.length_range]
  rw [if_pos ⟨rfl, hc0, by rw [hlen]; omega⟩]
  show (dirRowData g csx csy diag r).getD c.toNat (-1) = _
  unfold dirRowData
  rw [getD_map_range _ _ _ _ (by omega)]
  have hcast : ((c.toNat : ℕ) : ℤ) = c := by omega
  rw [hcast]

/-- **C4.** Running the D8 Direction Resolver twice on identical input
(same elevations, nodata sentinel and cell sizes) yields a bit-identical
direction grid, regardless of worker count or scheduling (arrival order)
of the parallel row workers. -/
theorem c4_direction_determinism (g : Grid) (csx csy diag : ℚ)
    (P₁ P₂ : ℕ) (hP₁ : 0 < P₁) (hP₂ : 0 < P₂)
    (ms₁ ms₂ : List (ℤ × List ℤ))
    (h₁ : ms₁.Perm (workerMsgs g csx csy diag P₁))
    (h₂ : ms₂.Perm (workerMsgs g csx csy diag P₂))
    (r c : ℤ) (h : g.inB r c) :
    assembleDir ms₁ r c = assembleDir ms₂ r c := by
  rw [assembleDir_eq_flowDir g csx csy diag P₁ hP₁ ms₁ h₁ r c h,
    assembleDir_eq_flowDir g csx csy diag P₂ hP₂ ms₂ h₂ r c h]

/-- Witness for C4: one worker in arrival order versus two workers with
reversed arrival order, on a concrete grid. -/
theorem c4_direction_determinism_witness :
    assembleDir (workerMsgs gridW 1 1 (3/2) 1) 0 1 =
      assembleDir ((workerMsgs gridW 1 1 (3/2) 2).reverse) 0 1 :=
  c4_direction_determinism gridW 1 1 (3/2) 1 2 (by decide) (by decide)
    _ _ (List.Perm.refl _) (List.reverse_perm _) 0 1 (by decide)

/-- Clamped read of an `f64` output raster: the nodata sentinel outside
the raster extent, mirroring Whitebox raster indexing. -/
def oget (g : Grid) (f : ℤ → ℤ → ℚ) (r c : ℤ) : ℚ :=
  if g.inB r c then f r c else g.nodata

/-- Pointwise write to an output raster store. -/
def oset (f : ℤ → ℤ → ℚ) (r c : ℤ) (v : ℚ) : ℤ → ℤ → ℚ :=
  fun r' c' => if r' = r ∧ c' = c then v else f r' c'

/-- Clamped read of an `Array2D<i8>` whose fill/nodata value is `-1`:
out-of-bounds reads return `-1`. -/
def nget (g : Grid) (f : ℤ → ℤ → ℤ) (r c : ℤ) : ℤ :=
  if g.inB r c then f r c else -1

/-- Pointwise write to an `Array2D<i8>` store. -/
def nset (f : ℤ → ℤ → ℤ) (r c : ℤ) (v : ℤ) : ℤ → ℤ → ℤ :=
  fun r' c' => if r' = r ∧ c' = c then v else f r' c'

/-- The scan indices whose neighbour's direction flows into `(r, c)`:
`flow_dir[neighbour i] == inflowing_vals[i]`. -/
def contribCells (fd : ℤ → ℤ → ℤ) (r c : ℤ) : List ℕ :=
  (List.range 8).filter fun i => fd (r + dyT i) (c + dxT i) = inflowT i

/-- The `num_inflowing` pass: count of inflowing neighbours for valid
cells, `-1` for nodata cells (`d8_flow_accum.rs` lines 354-369). -/
def numInflowing (g : Grid) (fd : ℤ → ℤ → ℤ) (r c : ℤ) : ℤ :=
  if g.get r c ≠ g.nodata then ((contribCells fd r c).length : ℤ) else -1

/-- State of the sequential flow-accumulation propagation: the work stack
(top at the head), the accumulation raster and the mutable inflow grid. -/
structure AccState where
  stack : List (ℤ × ℤ)
  acc : ℤ → ℤ → ℚ
  ninf : ℤ → ℤ → ℤ

/-- One iteration of the propagation loop for the popped cell `t`
(`d8_flow_accum.rs` lines 406-421): decrement the popped cell's own
inflow count, and if it has a valid direction add its accumulation into
the downstream neighbour, decrement that neighbour's count and push the
neighbour when the count reaches zero. -/
def accStep (g : Grid) (fd : ℤ → ℤ → ℤ) (t : ℤ × ℤ) (st : AccState) :
    AccState :=
  let fa := oget g st.acc t.1 t.2
  let ninf1 := nset st.ninf t.1 t.2 (nget g st.ninf t.1 t.2 - 1)
  let dir := fd t.1 t.2
  if 0 ≤ dir then
    let rn := t.1 + dyT dir.toNat
    let cn := t.2 + dxT dir.toNat
    let acc2 := oset st.acc rn cn (oget g st.acc rn cn + fa)
    let ninf2 := nset ninf1 rn cn (nget g ninf1 rn cn - 1)
    if nget g ninf2 rn cn = 0 then ⟨(rn, cn) :: st.stack, acc2, ninf2⟩
    else ⟨st.stack, acc2, ninf2⟩
  else ⟨st.stack, st.acc, ninf1⟩

/-- The `while !stack.is_empty()` propagation loop, fuel-bounded; the fuel
used by the runner provably exceeds the number of iterations. -/
def accLoop (g : Grid) (fd : ℤ → ℤ → ℤ) : ℕ → AccState → AccState
  | 0, st => st
  | fuel + 1, st =>
    match st.stack with
    | [] => st
    | t :: rest => accLoop g fd fuel (accStep g fd t ⟨rest, st.acc, st.ninf⟩)

/-- Initial propagation state: every cell's accumulation starts at `1.0`
(`output.reinitialize_values(1.0)`), the inflow grid is the
`num_inflowing` pass, and the seed stack holds every valid cell of
inflow count zero (pushed in row-major scan order, popped LIFO). -/
def accInit (g : Grid) (fd : ℤ → ℤ → ℤ) : AccState where
  stack :=
    (((cellList g).filter fun p => numInflowing g fd p.1 p.2 = 0)).reverse
  acc := fun _ _ => 1
  ninf := fun r c => numInflowing g fd r c

/-- Fuel that provably exceeds the iteration count of the propagation. -/
def accFuel (g : Grid) : ℕ := g.rows.toNat * g.cols.toNat + 1

/-- The raw (pre-unit-conversion) flow-accumulation state of the tool. -/
def accRun (g : Grid) (csx csy diag : ℚ) : AccState :=
  accLoop g (flowDir g csx csy diag) (accFuel g)
    (accInit g (flowDir g csx csy diag))

/-- The properties of a direction grid produced by the D8 resolver that
the accumulator's correctness rests on: a non-negative direction is a
code `0-7` of a valid cell targeting a valid cell of strictly lower
elevation. -/
def FdOk (g : Grid) (fd : ℤ → ℤ → ℤ) : Prop :=
  ∀ r c : ℤ, ∀ k : ℕ, fd r c = (k : ℤ) →
    k < 8 ∧ g.valid r c ∧ g.valid (r + dyT k) (c + dxT k) ∧
      g.get (r + dyT k) (c + dxT k) < g.get r c

/-- Number of valid cells not yet popped (inflow count still
non-negative); strictly decreases at every loop iteration. -/
def unpoppedCount (g : Grid) (st : AccState) : ℕ :=
  ((cellList g).filter fun p => 0 ≤ nget g st.ninf p.1 p.2).length

/-- Loop invariant of the flow-accumulation propagation.  A cell is
"popped" when its inflow entry has gone negative; the stack holds exactly
the valid cells of inflow count zero; each valid cell's inflow entry is
its contributor count minus the popped contributors (minus one once the
cell itself is popped); its accumulation is one plus the accumulations of
its popped contributors. -/
def AccInv (g : Grid) (fd : ℤ → ℤ → ℤ) (st : AccState) : Prop :=
  (∀ p ∈ st.stack, g.valid p.1 p.2 ∧ nget g st.ninf p.1 p.2 = 0) ∧
  st.stack.Nodup ∧
  (∀ r c : ℤ, g.valid r c → -1 ≤ nget g st.ninf r c) ∧
  (∀ r c : ℤ, g.valid r c → nget g st.ninf r c = 0 → (r, c) ∈ st.stack) ∧
  (∀ r c : ℤ, g.valid r c →
    nget g st.ninf r c + (if nget g st.ninf r c < 0 then 1 else 0)
      + (((contribCells fd r c).filter fun i =>
          nget g st.ninf (r + dyT i) (c + dxT i) < 0).length : ℤ)
      = ((contribCells fd r c).length : ℤ)) ∧
  (∀ r c : ℤ, g.valid r c →
    oget g st.acc r c
      = 1 + (((contribCells fd r c).filter fun i =>
          nget g st.ninf (r + dyT i) (c + dxT i) < 0).map fun i =>
          oget g st.acc (r + dyT i) (c + dxT i)).sum) ∧
  (∀ r c : ℤ, g.valid r c → 1 ≤ oget g st.acc r c) ∧
  (∀ r c : ℤ, g.inB r c → ¬ g.valid r c → nget g st.ninf r c = -1)

lemma nget_nset_self (g : Grid) (f : ℤ → ℤ → ℤ) {r c : ℤ} (v : ℤ)
    (h : g.inB r c) : nget g (nset f r c v) r c = v := by
  unfold nget nset
  rw [if_pos h, if_pos ⟨rfl, rfl⟩]

lemma nget_nset_ne (g : Grid) (f : ℤ → ℤ → ℤ) {r c r' c' : ℤ} (v : ℤ)
    (h : ¬(r' = r ∧ c' = c)) :
    nget g (nset f r c v) r' c' = nget g f r' c' := by
  unfold nget nset
  rw [if_neg h]

lemma oget_oset_self (g : Grid) (f : ℤ → ℤ → ℚ) {r c : ℤ} (v : ℚ)
    (h : g.inB r c) : oget g (oset f r c v) r c = v := by
  unfold oget oset
  rw [if_pos h, if_pos ⟨rfl, rfl⟩]

lemma oget_oset_ne (g : Grid) (f : ℤ → ℤ → ℚ) {r c r' c' : ℤ} (v : ℚ)
    (h : ¬(r' = r ∧ c' = c)) :
    oget g (oset f r c v) r' c' = oget g f r' c' := by
  unfold oget oset
  rw [if_neg h]

lemma offT_ne_zero : ∀ i < 8, ¬(dyT i = 0 ∧ dxT i = 0) := by decide

lemma inflow_back : ∀ k < 8, inflowT ((k + 4) % 8) = (k : ℤ) ∧
    dyT ((k + 4) % 8) = -dyT k ∧ dxT ((k + 4) % 8) = -dxT k := by decide

lemma inflow_unique : ∀ k : ℕ, k < 8 → ∀ i : ℕ, i < 8 →
    inflowT i = (k : ℤ) → i = (k + 4) % 8 := by
  decide

lemma inflow_range : ∀ i < 8, 0 ≤ inflowT i ∧ inflowT i < 8 := by decide

lemma inflow_target : ∀ i < 8, dyT ((inflowT i).toNat) = -dyT i ∧
    dxT ((inflowT i).toNat) = -dxT i := by decide

lemma filter_length_flip {α : Type} (l : List α) (p q : α → Bool) (a : α)
    (hl : l.Nodup) (ha : a ∈ l) (hq : q a = true) (hp : p a = false)
    (hagree : ∀ x ∈ l, x ≠ a → q x = p x) :
    (l.filter q).length = (l.filter p).length + 1 := by
  induction l with
  | nil => cases ha
  | cons b l' ih =>
    rw [List.nodup_cons] at hl
    rcases List.mem_cons.mp ha with h' | h'
    · subst h'
      have hfq : l'.filter q = l'.filter p :=
        List.filter_congr fun x hx =>
          hagree x (List.mem_cons_of_mem _ hx) fun hc => hl.1 (hc ▸ hx)
      rw [List.filter_cons, List.filter_cons, hq, hp, hfq]
      simp
    · have hb : b ≠ a := fun hc => hl.1 (hc ▸ h')
      have hqb : q b = p b := hagree b (List.mem_cons_self _ _) hb
      have := ih hl.2 h' fun x hx hxa => hagree x (List.mem_cons_of_mem _ hx) hxa
      rw [List.filter_cons, List.filter_cons, hqb]
      by_cases hpb : p b = true
      · rw [hpb]; simp only [if_true, List.length_cons]; omega
      · rw [Bool.not_eq_true] at hpb
        rw [hpb]; simpa using this

lemma filter_map_sum_flip (l : List ℕ) (p q : ℕ → Bool) (f : ℕ → ℚ) (a : ℕ)
    (hl : l.Nodup) (ha : a ∈ l) (hq : q a = true) (hp : p a = false)
    (hagree : ∀ x ∈ l, x ≠ a → q x = p x) :
    ((l.filter q).map f).sum = ((l.filter p).map f).sum + f a := by
  induction l with
  | nil => cases ha
  | cons b l' ih =>
    rw [List.nodup_cons] at hl
    rcases List.mem_cons.mp ha with h' | h'
    · subst h'
      have hfq : l'.filter q = l'.filter p :=
        List.filter_congr fun x hx =>
          hagree x (List.mem_cons_of_mem _ hx) fun hc => hl.1 (hc ▸ hx)
      rw [List.filter_cons, List.filter_cons, hq, hp, hfq]
      simp only [if_true, Bool.false_eq_true, if_false, List.map_cons,
        List.sum_cons]
      ring
    · have hb : b ≠ a := fun hc => hl.1 (hc ▸ h')
      have hqb : q b = p b := hagree b (List.mem_cons_self _ _) hb
      have hrec := ih hl.2 h'
        fun x hx hxa => hagree x (List.mem_cons_of_mem _ hx) hxa
      rw [List.filter_cons, List.filter_cons, hqb]
      by_cases hpb : p b = true
      · rw [hpb]
        simp only [if_true, List.map_cons, List.sum_cons, hrec]
        ring
      · rw [Bool.not_eq_true] at hpb
        rw [hpb]
        simpa using hrec

lemma contrib_nodup (fd : ℤ → ℤ → ℤ) (r c : ℤ) :
    (contribCells fd r c).Nodup :=
  List.Nodup.filter _ (List.nodup_range 8)

lemma mem_contribCells {fd : ℤ → ℤ → ℤ} {r c : ℤ} {i : ℕ} :
    i ∈ contribCells fd r c ↔
      i < 8 ∧ fd (r + dyT i) (c + dxT i) = inflowT i := by
  unfold contribCells
  rw [List.mem_filter, List.mem_range, decide_eq_true_iff]

lemma contrib_valid (g : Grid) (fd : ℤ → ℤ → ℤ) (hfd : FdOk g fd)
    {r c : ℤ} {i : ℕ} (hi : i ∈ contribCells fd r c) :
    g.valid (r + dyT i) (c + dxT i) ∧
      g.get r c < g.get (r + dyT i) (c + dxT i) := by
  obtain ⟨hi8, hfdv⟩ := mem_contribCells.mp hi
  obtain ⟨h0, h8⟩ := inflow_range i hi8
  have hk : fd (r + dyT i) (c + dxT i) = (((inflowT i).toNat : ℕ) : ℤ) := by
    rw [hfdv]; omega
  obtain ⟨_, hvn, hvt, hlow⟩ := hfd _ _ _ hk
  obtain ⟨hdy, hdx⟩ := inflow_target i hi8
  have hry : r + dyT i + dyT (inflowT i).toNat = r := by rw [hdy]; ring
  have hrx : c + dxT i + dxT (inflowT i).toNat = c := by rw [hdx]; ring
  rw [hry, hrx] at hlow
  exact ⟨hvn, hlow⟩

lemma cellList_nodup (g : Grid) : (cellList g).Nodup := by
  unfold cellList
  rw [List.nodup_flatMap]
  constructor
  · intro r _
    refine List.Nodup.map ?_ (List.nodup_range _)
    intro a b hab
    rw [Prod.mk.injEq] at hab
    omega
  · refine (List.pairwise_lt_range _).imp ?_
    intro a b hab
    rw [Function.onFun]
    intro x hx hy
    obtain ⟨ca, _, hxa⟩ := List.mem_map.mp hx
    obtain ⟨cb, _, hxb⟩ := List.mem_map.mp hy
    rw [← hxb, Prod.mk.injEq] at hxa
    omega

lemma filter_length_eq_all {α : Type} (l : List α) (p : α → Bool)
    (h : (l.filter p).length = l.length) : ∀ x ∈ l, p x = true := by
  induction l with
  | nil => intro x hx; cases hx
  | cons b l' ih =>
    intro x hx
    rw [List.filter_cons] at h
    by_cases hb : p b = true
    · rw [if_pos hb] at h
      rcases List.mem_cons.mp hx with h' | h'
      · rwa [h']
      · exact ih (by simpa using h) x h'
    · rw [Bool.not_eq_true] at hb
      rw [hb] at h
      simp only [Bool.false_eq_true, if_false, List.length_cons] at h
      have := List.length_filter_le p l'
      omega

lemma pair_ne_iff {p t : ℤ × ℤ} : p ≠ t ↔ ¬(p.1 = t.1 ∧ p.2 = t.2) := by
  rw [ne_eq, Prod.ext_iff]

/-- Popping a pit cell (negative direction): only the popped cell's own
inflow entry changes. -/
lemma accStep_inv_neg (g : Grid) (fd : ℤ → ℤ → ℤ) (hfd : FdOk g fd)
    (r0 c0 : ℤ) (rest : List (ℤ × ℤ)) (A : ℤ → ℤ → ℚ) (I : ℤ → ℤ → ℤ)
    (hinv : AccInv g fd ⟨(r0, c0) :: rest, A, I⟩)
    (hdir : ¬ 0 ≤ fd r0 c0) :
    AccInv g fd (accStep g fd (r0, c0) ⟨rest, A, I⟩) ∧
    unpoppedCount g (accStep g fd (r0, c0) ⟨rest, A, I⟩) + 1
      = unpoppedCount g ⟨(r0, c0) :: rest, A, I⟩ := by
  obtain ⟨h1, h2, h3, h4, h5, h6, h7, h8⟩ := hinv
  dsimp only at h1 h2 h3 h4 h5 h6 h7 h8
  obtain ⟨htv, ht0⟩ := h1 (r0, c0) (List.mem_cons_self _ rest)
  have ht0 : nget g I r0 c0 = 0 := ht0
  have htnr : (r0, c0) ∉ rest := (List.nodup_cons.mp h2).1
  have hrest : rest.Nodup := (List.nodup_cons.mp h2).2
  have htB : g.inB r0 c0 := htv.1
  unfold accStep
  simp only [hdir, if_false]
  set J := nset I r0 c0 (nget g I r0 c0 - 1) with hJ
  have hJt : nget g J r0 c0 = -1 := by
    rw [hJ, nget_nset_self g I _ htB, ht0]
    omega
  have hJo : ∀ r c : ℤ, ¬(r = r0 ∧ c = c0) → nget g J r c = nget g I r c :=
    fun r c hp => nget_nset_ne g I _ hp
  -- no cell counts the popped pit among its contributors
  have hnot : ∀ r c : ℤ, ∀ i ∈ contribCells fd r c,
      ¬(r + dyT i = r0 ∧ c + dxT i = c0) := by
    rintro r c i hi ⟨hcr, hcc⟩
    obtain ⟨hi8, hfdi⟩ := mem_contribCells.mp hi
    rw [hcr, hcc] at hfdi
    exact hdir (hfdi ▸ (inflow_range i hi8).1)
  have hfilter : ∀ r c : ℤ,
      ((contribCells fd r c).filter
        fun i => decide (nget g J (r + dyT i) (c + dxT i) < 0))
      = ((contribCells fd r c).filter
        fun i => decide (nget g I (r + dyT i) (c + dxT i) < 0)) := by
    intro r c
    refine List.filter_congr fun i hi => ?_
    rw [hJo _ _ (hnot r c i hi)]
  refine ⟨⟨?_, hrest, ?_, ?_, ?_, ?_, h7, ?_⟩, ?_⟩
  · rintro ⟨r, c⟩ hp
    have hpt : ¬(r = r0 ∧ c = c0) := by
      rintro ⟨rfl, rfl⟩; exact htnr hp
    exact ⟨(h1 (r, c) (List.mem_cons_of_mem _ hp)).1,
      (hJo r c hpt).trans (h1 (r, c) (List.mem_cons_of_mem _ hp)).2⟩
  · intro r c hv
    by_cases hc : r = r0 ∧ c = c0
    · obtain ⟨rfl, rfl⟩ := hc
      rw [hJt]
    · rw [hJo _ _ hc]
      exact h3 r c hv
  · intro r c hv hz
    by_cases hc : r = r0 ∧ c = c0
    · obtain ⟨rfl, rfl⟩ := hc
      rw [hJt] at hz
      omega
    · rw [hJo _ _ hc] at hz
      rcases List.mem_cons.mp (h4 r c hv hz) with h' | h'
      · rw [Prod.mk.injEq] at h'
        exact absurd h' hc
      · exact h'
  · intro r c hv
    rw [hfilter r c]
    by_cases hc : r = r0 ∧ c = c0
    · obtain ⟨rfl, rfl⟩ := hc
      rw [hJt]
      have h5t := h5 r c hv
      rw [ht0] at h5t
      rw [if_neg (by omega : ¬ (0 : ℤ) < 0)] at h5t
      rw [if_pos (by omega : (-1 : ℤ) < 0)]
      omega
    · rw [hJo _ _ hc]
      exact h5 r c hv
  · intro r c hv
    rw [hfilter r c]
    exact h6 r c hv
  · intro r c hB hnv
    have hc : ¬(r = r0 ∧ c = c0) := by
      rintro ⟨rfl, rfl⟩; exact hnv htv
    rw [hJo _ _ hc]
    exact h8 r c hB hnv
  · unfold unpoppedCount
    dsimp only
    refine (filter_length_flip (cellList g) _ _ (r0, c0) (cellList_nodup g)
      (mem_cellList htB) ?_ ?_ ?_).symm
    · show decide ((0 : ℤ) ≤ nget g I r0 c0) = true
      rw [decide_eq_true_iff, ht0]
    · show decide ((0 : ℤ) ≤ nget g J r0 c0) = false
      rw [decide_eq_false_iff_not, hJt]
      omega
    · rintro ⟨r, c⟩ hp hpt
      show decide ((0 : ℤ) ≤ nget g I r c) = decide ((0 : ℤ) ≤ nget g J r c)
      rw [decide_eq_decide, hJo r c (pair_ne_iff.mp hpt)]

lemma accStep_pos_eq (g : Grid) (fd : ℤ → ℤ → ℤ) (r0 c0 : ℤ)
    (rest : List (ℤ × ℤ)) (A : ℤ → ℤ → ℚ) (I : ℤ → ℤ → ℤ) (k : ℕ)
    (hk : fd r0 c0 = (k : ℤ)) :
    accStep g fd (r0, c0) ⟨rest, A, I⟩ =
      (if nget g (nset (nset I r0 c0 (nget g I r0 c0 - 1)) (r0 + dyT k)
            (c0 + dxT k) (nget g (nset I r0 c0 (nget g I r0 c0 - 1))
              (r0 + dyT k) (c0 + dxT k) - 1)) (r0 + dyT k) (c0 + dxT k) = 0
        then ⟨(r0 + dyT k, c0 + dxT k) :: rest,
          oset A (r0 + dyT k) (c0 + dxT k)
            (oget g A (r0 + dyT k) (c0 + dxT k) + oget g A r0 c0),
          nset (nset I r0 c0 (nget g I r0 c0 - 1)) (r0 + dyT k)
            (c0 + dxT k) (nget g (nset I r0 c0 (nget g I r0 c0 - 1))
              (r0 + dyT k) (c0 + dxT k) - 1)⟩
        else ⟨rest,
          oset A (r0 + dyT k) (c0 + dxT k)
            (oget g A (r0 + dyT k) (c0 + dxT k) + oget g A r0 c0),
          nset (nset I r0 c0 (nget g I r0 c0 - 1)) (r0 + dyT k)
            (c0 + dxT k) (nget g (nset I r0 c0 (nget g I r0 c0 - 1))
              (r0 + dyT k) (c0 + dxT k) - 1)⟩) := by
  unfold accStep
  dsimp only
  rw [hk]
  rw [if_pos (by omega : (0 : ℤ) ≤ (k : ℤ))]
  rw [Int.toNat_natCast]

/-- Popping a cell with a valid direction: its accumulation flows into the
downstream neighbour, whose inflow count is decremented; the neighbour is
pushed exactly when its count reaches zero. -/
lemma accStep_inv_pos (g : Grid) (fd : ℤ → ℤ → ℤ) (hfd : FdOk g fd)
    (r0 c0 : ℤ) (rest : List (ℤ × ℤ)) (A : ℤ → ℤ → ℚ) (I : ℤ → ℤ → ℤ)
    (hinv : AccInv g fd ⟨(r0, c0) :: rest, A, I⟩)
    (hdir : 0 ≤ fd r0 c0) :
    AccInv g fd (accStep g fd (r0, c0) ⟨rest, A, I⟩) ∧
    unpoppedCount g (accStep g fd (r0, c0) ⟨rest, A, I⟩) + 1
      = unpoppedCount g ⟨(r0, c0) :: rest, A, I⟩ := by
  obtain ⟨h1, h2, h3, h4, h5, h6, h7, h8⟩ := hinv
  dsimp only at h1 h2 h3 h4 h5 h6 h7 h8
  obtain ⟨htv, ht0⟩ := h1 (r0, c0) (List.mem_cons_self _ rest)
  have htv : g.valid r0 c0 := htv
  have ht0 : nget g I r0 c0 = 0 := ht0
  have htnr : (r0, c0) ∉ rest := (List.nodup_cons.mp h2).1
  have hrest : rest.Nodup := (List.nodup_cons.mp h2).2
  have htB : g.inB r0 c0 := htv.1
  have hk : fd r0 c0 = (((fd r0 c0).toNat : ℕ) : ℤ) := by omega
  set k := (fd r0 c0).toNat with hkdef
  obtain ⟨hk8, _, huv, hulow⟩ := hfd r0 c0 k hk
  have huB : g.inB (r0 + dyT k) (c0 + dxT k) := huv.1
  have hune : ¬(r0 + dyT k = r0 ∧ c0 + dxT k = c0) := by
    rintro ⟨h', h''⟩
    rw [h', h''] at hulow
    exact lt_irrefl _ hulow
  have hune' : ¬(r0 = r0 + dyT k ∧ c0 = c0 + dxT k) := by
    rintro ⟨h', h''⟩
    exact hune ⟨h'.symm, h''.symm⟩
  have hi08 : (k + 4) % 8 < 8 := Nat.mod_lt _ (by norm_num)
  obtain ⟨hinfl, hdy0, hdx0⟩ := inflow_back k hk8
  have hback_r : r0 + dyT k + dyT ((k + 4) % 8) = r0 := by rw [hdy0]; ring
  have hback_c : c0 + dxT k + dxT ((k + 4) % 8) = c0 := by rw [hdx0]; ring
  have hi0mem : (k + 4) % 8 ∈ contribCells fd (r0 + dyT k) (c0 + dxT k) := by
    refine mem_contribCells.mpr ⟨hi08, ?_⟩
    rw [hback_r, hback_c, hk, hinfl]
  have huniq : ∀ r c : ℤ, ∀ i ∈ contribCells fd r c,
      r + dyT i = r0 → c + dxT i = c0 →
      i = (k + 4) % 8 ∧ r = r0 + dyT k ∧ c = c0 + dxT k := by
    intro r c i hi hr hc
    obtain ⟨hi8, hfdi⟩ := mem_contribCells.mp hi
    rw [hr, hc, hk] at hfdi
    have hieq : i = (k + 4) % 8 := inflow_unique k hk8 i hi8 hfdi.symm
    subst hieq
    exact ⟨rfl, by omega, by omega⟩
  have hu1 : 1 ≤ nget g I (r0 + dyT k) (c0 + dxT k) := by
    have h3u := h3 _ _ huv
    have h5u := h5 _ _ huv
    by_contra hcon
    push_neg at hcon
    have hflen : (((contribCells fd (r0 + dyT k) (c0 + dxT k)).filter fun i =>
        decide (nget g I (r0 + dyT k + dyT i) (c0 + dxT k + dxT i) < 0)).length)
        = (contribCells fd (r0 + dyT k) (c0 + dxT k)).length := by
      by_cases hneg : nget g I (r0 + dyT k) (c0 + dxT k) < 0
      · rw [if_pos hneg] at h5u
        omega
      · rw [if_neg hneg] at h5u
        omega
    have hall := filter_length_eq_all _ _ hflen _ hi0mem
    rw [decide_eq_true_iff, hback_r, hback_c] at hall
    omega
  have hu_notin : (r0 + dyT k, c0 + dxT k) ∉ rest := by
    intro hmem
    have h0 : nget g I (r0 + dyT k) (c0 + dxT k) = 0 :=
      (h1 _ (List.mem_cons_of_mem _ hmem)).2
    omega
  rw [accStep_pos_eq g fd r0 c0 rest A I k hk]
  set J1 := nset I r0 c0 (nget g I r0 c0 - 1) with hJ1def
  set J2 := nset J1 (r0 + dyT k) (c0 + dxT k)
    (nget g J1 (r0 + dyT k) (c0 + dxT k) - 1) with hJ2def
  set A2 := oset A (r0 + dyT k) (c0 + dxT k)
    (oget g A (r0 + dyT k) (c0 + dxT k) + oget g A r0 c0) with hA2def
  have hJ1t : nget g J1 r0 c0 = -1 := by
    rw [hJ1def, nget_nset_self g I _ htB, ht0]
    omega
  have hJ1u : nget g J1 (r0 + dyT k) (c0 + dxT k)
      = nget g I (r0 + dyT k) (c0 + dxT k) := nget_nset_ne g I _ hune
  have hJ2u : nget g J2 (r0 + dyT k) (c0 + dxT k)
      = nget g I (r0 + dyT k) (c0 + dxT k) - 1 := by
    rw [hJ2def, nget_nset_self g J1 _ huB, hJ1u]
  have hJ2t : nget g J2 r0 c0 = -1 := by
    rw [hJ2def, nget_nset_ne g J1 _ hune', hJ1t]
  have hJ2o : ∀ r c : ℤ, ¬(r = r0 ∧ c = c0) →
      ¬(r = r0 + dyT k ∧ c = c0 + dxT k) →
      nget g J2 r c = nget g I r c := by
    intro r c hc1 hc2
    rw [hJ2def, nget_nset_ne g J1 _ hc2, hJ1def, nget_nset_ne g I _ hc1]
  have hA2u : oget g A2 (r0 + dyT k) (c0 + dxT k)
      = oget g A (r0 + dyT k) (c0 + dxT k) + oget g A r0 c0 := by
    rw [hA2def, oget_oset_self g A _ huB]
  have hA2o : ∀ r c : ℤ, ¬(r = r0 + dyT k ∧ c = c0 + dxT k) →
      oget g A2 r c = oget g A r c := by
    intro r c hc
    rw [hA2def, oget_oset_ne g A _ hc]
  have hfilterchg : ∀ r c : ℤ, ¬(r = r0 + dyT k ∧ c = c0 + dxT k) →
      ((contribCells fd r c).filter fun i =>
        decide (nget g J2 (r + dyT i) (c + dxT i) < 0))
      = ((contribCells fd r c).filter fun i =>
        decide (nget g I (r + dyT i) (c + dxT i) < 0)) := by
    intro r c hcu
    refine List.filter_congr fun i hi => ?_
    rw [decide_eq_decide]
    by_cases hct : r + dyT i = r0 ∧ c + dxT i = c0
    · exfalso
      obtain ⟨_, hr', hc'⟩ := huniq r c i hi hct.1 hct.2
      exact hcu ⟨hr', hc'⟩
    · by_cases hcu2 : r + dyT i = r0 + dyT k ∧ c + dxT i = c0 + dxT k
      · rw [hcu2.1, hcu2.2, hJ2u]
        omega
      · rw [hJ2o _ _ hct hcu2]
  have hq0 : decide (nget g J2 (r0 + dyT k + dyT ((k + 4) % 8))
      (c0 + dxT k + dxT ((k + 4) % 8)) < 0) = true := by
    rw [hback_r, hback_c, decide_eq_true_iff, hJ2t]
    omega
  have hp0 : decide (nget g I (r0 + dyT k + dyT ((k + 4) % 8))
      (c0 + dxT k + dxT ((k + 4) % 8)) < 0) = false := by
    rw [hback_r, hback_c, decide_eq_false_iff_not, ht0]
    omega
  have hagree0 : ∀ i ∈ contribCells fd (r0 + dyT k) (c0 + dxT k),
      i ≠ (k + 4) % 8 →
      decide (nget g J2 (r0 + dyT k + dyT i) (c0 + dxT k + dxT i) < 0)
        = decide (nget g I (r0 + dyT k + dyT i) (c0 + dxT k + dxT i) < 0) := by
    intro i hi hine
    rw [decide_eq_decide]
    by_cases hct : r0 + dyT k + dyT i = r0 ∧ c0 + dxT k + dxT i = c0
    · exact absurd (huniq _ _ i hi hct.1 hct.2).1 hine
    · by_cases hcu2 : r0 + dyT k + dyT i = r0 + dyT k ∧
          c0 + dxT k + dxT i = c0 + dxT k
      · obtain ⟨hi8, _⟩ := mem_contribCells.mp hi
        exact absurd ⟨by omega, by omega⟩ (offT_ne_zero i hi8)
      · rw [hJ2o _ _ hct hcu2]
  have hufilter_len : (((contribCells fd (r0 + dyT k) (c0 + dxT k)).filter
      fun i => decide (nget g J2 (r0 + dyT k + dyT i)
        (c0 + dxT k + dxT i) < 0)).length)
      = (((contribCells fd (r0 + dyT k) (c0 + dxT k)).filter
      fun i => decide (nget g I (r0 + dyT k + dyT i)
        (c0 + dxT k + dxT i) < 0)).length) + 1 :=
    filter_length_flip _ _ _ ((k + 4) % 8) (contrib_nodup fd _ _) hi0mem
      hq0 hp0 hagree0
  have husum : ((((contribCells fd (r0 + dyT k) (c0 + dxT k)).filter
      fun i => decide (nget g J2 (r0 + dyT k + dyT i)
        (c0 + dxT k + dxT i) < 0)).map
      fun i => oget g A (r0 + dyT k + dyT i) (c0 + dxT k + dxT i)).sum)
      = ((((contribCells fd (r0 + dyT k) (c0 + dxT k)).filter
      fun i => decide (nget g I (r0 + dyT k + dyT i)
        (c0 + dxT k + dxT i) < 0)).map
      fun i => oget g A (r0 + dyT k + dyT i) (c0 + dxT k + dxT i)).sum)
      + oget g A (r0 + dyT k + dyT ((k + 4) % 8))
          (c0 + dxT k + dxT ((k + 4) % 8)) :=
    filter_map_sum_flip _ _ _ _ ((k + 4) % 8) (contrib_nodup fd _ _) hi0mem
      hq0 hp0 hagree0
  have hc3 : ∀ r c : ℤ, g.valid r c → -1 ≤ nget g J2 r c := by
    intro r c hv
    by_cases hct : r = r0 ∧ c = c0
    · obtain ⟨rfl, rfl⟩ := hct
      rw [hJ2t]
    · by_cases hcu : r = r0 + dyT k ∧ c = c0 + dxT k
      · obtain ⟨rfl, rfl⟩ := hcu
        rw [hJ2u]
        omega
      · rw [hJ2o _ _ hct hcu]
        exact h3 r c hv
  have hc8 : ∀ r c : ℤ, g.inB r c → ¬ g.valid r c → nget g J2 r c = -1 := by
    intro r c hB hnv
    have hct : ¬(r = r0 ∧ c = c0) := by rintro ⟨rfl, rfl⟩; exact hnv htv
    have hcu : ¬(r = r0 + dyT k ∧ c = c0 + dxT k) := by
      rintro ⟨rfl, rfl⟩; exact hnv huv
    rw [hJ2o _ _ hct hcu]
    exact h8 r c hB hnv
  have hc5 : ∀ r c : ℤ, g.valid r c →
      nget g J2 r c + (if nget g J2 r c < 0 then 1 else 0)
        + (((contribCells fd r c).filter fun i =>
            decide (nget g J2 (r + dyT i) (c + dxT i) < 0)).length : ℤ)
        = ((contribCells fd r c).length : ℤ) := by
    intro r c hv
    by_cases hct : r = r0 ∧ c = c0
    · obtain ⟨rfl, rfl⟩ := hct
      rw [hfilterchg _ _ hune', hJ2t]
      have h5t := h5 r c hv
      rw [ht0, if_neg (by omega : ¬ (0 : ℤ) < 0)] at h5t
      rw [if_pos (by omega : (-1 : ℤ) < 0)]
      omega
    · by_cases hcu : r = r0 + dyT k ∧ c = c0 + dxT k
      · obtain ⟨rfl, rfl⟩ := hcu
        rw [hJ2u]
        have h5u := h5 _ _ huv
        rw [if_neg (by omega :
          ¬ nget g I (r0 + dyT k) (c0 + dxT k) < 0)] at h5u
        rw [if_neg (by omega :
          ¬ nget g I (r0 + dyT k) (c0 + dxT k) - 1 < 0)]
        omega
      · rw [hfilterchg _ _ hcu, hJ2o _ _ hct hcu]
        exact h5 r c hv
  have hc6 : ∀ r c : ℤ, g.valid r c →
      oget g A2 r c = 1 + (((contribCells fd r c).filter fun i =>
          decide (nget g J2 (r + dyT i) (c + dxT i) < 0)).map fun i =>
          oget g A2 (r + dyT i) (c + dxT i)).sum := by
    intro r c hv
    by_cases hcu : r = r0 + dyT k ∧ c = c0 + dxT k
    · obtain ⟨rfl, rfl⟩ := hcu
      rw [hA2u]
      have hmapeq : (((contribCells fd (r0 + dyT k) (c0 + dxT k)).filter
          fun i => decide (nget g J2 (r0 + dyT k + dyT i)
            (c0 + dxT k + dxT i) < 0)).map fun i =>
          oget g A2 (r0 + dyT k + dyT i) (c0 + dxT k + dxT i))
          = (((contribCells fd (r0 + dyT k) (c0 + dxT k)).filter
          fun i => decide (nget g J2 (r0 + dyT k + dyT i)
            (c0 + dxT k + dxT i) < 0)).map fun i =>
          oget g A (r0 + dyT k + dyT i) (c0 + dxT k + dxT i)) := by
        refine List.map_congr_left fun i hi => ?_
        have hi' := List.mem_of_mem_filter hi
        obtain ⟨hi8, _⟩ := mem_contribCells.mp hi'
        refine hA2o _ _ ?_
        rintro ⟨h', h''⟩
        exact offT_ne_zero i hi8 ⟨by omega, by omega⟩
      rw [hmapeq, husum, hback_r, hback_c]
      have h6u := h6 _ _ huv
      rw [h6u]
      ring
    · rw [hA2o _ _ hcu, hfilterchg _ _ hcu]
      have hmap2 : (((contribCells fd r c).filter fun i =>
          decide (nget g I (r + dyT i) (c + dxT i) < 0)).map fun i =>
          oget g A2 (r + dyT i) (c + dxT i))
          = (((contribCells fd r c).filter fun i =>
          decide (nget g I (r + dyT i) (c + dxT i) < 0)).map fun i =>
          oget g A (r + dyT i) (c + dxT i)) := by
        refine List.map_congr_left fun i hi => ?_
        have hstat := List.of_mem_filter hi
        rw [decide_eq_true_iff] at hstat
        refine hA2o _ _ ?_
        rintro ⟨h', h''⟩
        rw [h', h''] at hstat
        omega
      rw [hmap2]
      exact h6 r c hv
  have hc7 : ∀ r c : ℤ, g.valid r c → 1 ≤ oget g A2 r c := by
    intro r c hv
    by_cases hcu : r = r0 + dyT k ∧ c = c0 + dxT k
    · obtain ⟨rfl, rfl⟩ := hcu
      rw [hA2u]
      have hx := h7 _ _ huv
      have hy := h7 r0 c0 htv
      linarith
    · rw [hA2o _ _ hcu]
      exact h7 r c hv
  have hrest_mem : ∀ p ∈ rest, g.valid p.1 p.2 ∧ nget g J2 p.1 p.2 = 0 := by
    intro p hp
    obtain ⟨hpv, hp0⟩ := h1 p (List.mem_cons_of_mem _ hp)
    have hct : ¬(p.1 = r0 ∧ p.2 = c0) := by
      rintro ⟨h', h''⟩
      have hpe : p = (r0, c0) := Prod.ext_iff.mpr ⟨h', h''⟩
      exact htnr (hpe ▸ hp)
    have hcu : ¬(p.1 = r0 + dyT k ∧ p.2 = c0 + dxT k) := by
      rintro ⟨h', h''⟩
      have hpe : p = (r0 + dyT k, c0 + dxT k) := Prod.ext_iff.mpr ⟨h', h''⟩
      exact hu_notin (hpe ▸ hp)
    rw [hJ2o _ _ hct hcu]
    exact ⟨hpv, hp0⟩
  have hc4core : ∀ r c : ℤ, g.valid r c → nget g J2 r c = 0 →
      (r = r0 + dyT k ∧ c = c0 + dxT k) ∨ (r, c) ∈ rest := by
    intro r c hv h0
    by_cases hct : r = r0 ∧ c = c0
    · obtain ⟨rfl, rfl⟩ := hct
      rw [hJ2t] at h0
      omega
    · by_cases hcu : r = r0 + dyT k ∧ c = c0 + dxT k
      · exact Or.inl hcu
      · rw [hJ2o _ _ hct hcu] at h0
        rcases List.mem_cons.mp (h4 r c hv h0) with h' | h'
        · rw [Prod.mk.injEq] at h'
          exact absurd h' hct
        · exact Or.inr h'
  have hcount : ((cellList g).filter fun p =>
        decide (0 ≤ nget g J2 p.1 p.2)).length + 1
      = ((cellList g).filter fun p =>
        decide (0 ≤ nget g I p.1 p.2)).length := by
    refine (filter_length_flip (cellList g) _ _ (r0, c0) (cellList_nodup g)
      (mem_cellList htB) ?_ ?_ ?_).symm
    · show decide ((0 : ℤ) ≤ nget g I r0 c0) = true
      rw [decide_eq_true_iff, ht0]
    · show decide ((0 : ℤ) ≤ nget g J2 r0 c0) = false
      rw [decide_eq_false_iff_not, hJ2t]
      omega
    · rintro ⟨r, c⟩ hp hpt
      show decide ((0 : ℤ) ≤ nget g I r c) = decide ((0 : ℤ) ≤ nget g J2 r c)
      rw [decide_eq_decide]
      have hct : ¬(r = r0 ∧ c = c0) := by
        rintro ⟨rfl, rfl⟩; exact hpt rfl
      by_cases hcu : r = r0 + dyT k ∧ c = c0 + dxT k
      · obtain ⟨rfl, rfl⟩ := hcu
        rw [hJ2u]
        omega
      · rw [hJ2o _ _ hct hcu]
  by_cases hpush : nget g J2 (r0 + dyT k) (c0 + dxT k) = 0
  · rw [if_pos hpush]
    refine ⟨⟨?_, ?_, hc3, ?_, hc5, hc6, hc7, hc8⟩, ?_⟩
    · intro p hp
      rcases List.mem_cons.mp hp with h' | h'
      · subst h'
        exact ⟨huv, hpush⟩
      · exact hrest_mem p h'
    · exact List.nodup_cons.mpr ⟨hu_notin, hrest⟩
    · intro r c hv h0
      rcases hc4core r c hv h0 with h' | h'
      · exact List.mem_cons.mpr (Or.inl (Prod.ext_iff.mpr h'))
      · exact List.mem_cons_of_mem _ h'
    · unfold unpoppedCount
      dsimp only
      exact hcount
  · rw [if_neg hpush]
    refine ⟨⟨?_, hrest, hc3, ?_, hc5, hc6, hc7, hc8⟩, ?_⟩
    · intro p hp
      exact hrest_mem p hp
    · intro r c hv h0
      rcases hc4core r c hv h0 with h' | h'
      · exfalso
        obtain ⟨rfl, rfl⟩ := h'
        exact hpush h0
      · exact h'
    · unfold unpoppedCount
      dsimp only
      exact hcount

lemma accStep_inv (g : Grid) (fd : ℤ → ℤ → ℤ) (hfd : FdOk g fd)
    (r0 c0 : ℤ) (rest : List (ℤ × ℤ)) (A : ℤ → ℤ → ℚ) (I : ℤ → ℤ → ℤ)
    (hinv : AccInv g fd ⟨(r0, c0) :: rest, A, I⟩) :
    AccInv g fd (accStep g fd (r0, c0) ⟨rest, A, I⟩) ∧
    unpoppedCount g (accStep g fd (r0, c0) ⟨rest, A, I⟩) + 1
      = unpoppedCount g ⟨(r0, c0) :: rest, A, I⟩ := by
  by_cases hdir : 0 ≤ fd r0 c0
  · exact accStep_inv_pos g fd hfd r0 c0 rest A I hinv hdir
  · exact accStep_inv_neg g fd hfd r0 c0 rest A I hinv hdir

lemma accLoop_done (g : Grid) (fd : ℤ → ℤ → ℤ) (hfd : FdOk g fd) :
    ∀ (fuel : ℕ) (stack : List (ℤ × ℤ)) (A : ℤ → ℤ → ℚ) (I : ℤ → ℤ → ℤ),
    AccInv g fd ⟨stack, A, I⟩ → unpoppedCount g ⟨stack, A, I⟩ < fuel →
    (accLoop g fd fuel ⟨stack, A, I⟩).stack = [] ∧
      AccInv g fd (accLoop g fd fuel ⟨stack, A, I⟩) := by
  intro fuel
  induction fuel with
  | zero => intro stack A I _ h; omega
  | succ n ih =>
    intro stack A I hinv hcnt
    cases stack with
    | nil => exact ⟨rfl, hinv⟩
    | cons t rest =>
      obtain ⟨r0, c0⟩ := t
      obtain ⟨hinv', hcnt'⟩ := accStep_inv g fd hfd r0 c0 rest A I hinv
      have hred : accLoop g fd (n + 1) ⟨(r0, c0) :: rest, A, I⟩
          = accLoop g fd n (accStep g fd (r0, c0) ⟨rest, A, I⟩) := rfl
      rw [hred]
      cases hstep : accStep g fd (r0, c0) ⟨rest, A, I⟩ with
      | mk st2 A2 I2 =>
        rw [hstep] at hinv' hcnt'
        exact ih st2 A2 I2 hinv' (by omega)

lemma numInflowing_valid (g : Grid) (fd : ℤ → ℤ → ℤ) {r c : ℤ}
    (hv : g.valid r c) :
    numInflowing g fd r c = ((contribCells fd r c).length : ℤ) := by
  unfold numInflowing
  rw [if_pos ((Grid.get_ne_iff g r c).mpr hv)]

lemma accInit_inv (g : Grid) (fd : ℤ → ℤ → ℤ) (hfd : FdOk g fd) :
    AccInv g fd (accInit g fd) := by
  have hng : ∀ r c : ℤ, g.inB r c →
      nget g (fun r c => numInflowing g fd r c) r c = numInflowing g fd r c :=
    fun r c h => by unfold nget; rw [if_pos h]
  have hacc1 : ∀ r c : ℤ, g.inB r c →
      oget g (fun _ _ => (1 : ℚ)) r c = 1 :=
    fun r c h => by unfold oget; rw [if_pos h]
  have hfilternil : ∀ r c : ℤ,
      ((contribCells fd r c).filter fun i =>
        decide (nget g (fun r c => numInflowing g fd r c)
          (r + dyT i) (c + dxT i) < 0)) = [] := by
    intro r c
    rw [List.filter_eq_nil_iff]
    intro i hi
    rw [Bool.not_eq_true, decide_eq_false_iff_not]
    have hnv := (contrib_valid g fd hfd hi).1
    rw [hng _ _ hnv.1, numInflowing_valid g fd hnv]
    omega
  have hc1 : ∀ p ∈ (((cellList g).filter fun p =>
        numInflowing g fd p.1 p.2 = 0).reverse),
      g.valid p.1 p.2 ∧
        nget g (fun r c => numInflowing g fd r c) p.1 p.2 = 0 := by
    intro p hp
    rw [List.mem_reverse, List.mem_filter] at hp
    obtain ⟨hmem, hpred⟩ := hp
    have hB := cellList_mem_inB hmem
    rw [decide_eq_true_iff] at hpred
    have hvp : g.valid p.1 p.2 := by
      by_contra hnv
      unfold numInflowing at hpred
      rw [if_neg (fun hne => hnv ((Grid.get_ne_iff g _ _).mp hne))] at hpred
      omega
    exact ⟨hvp, by rw [hng _ _ hB]; exact hpred⟩
  have hc2 : (((cellList g).filter fun p =>
      numInflowing g fd p.1 p.2 = 0).reverse).Nodup :=
    List.nodup_reverse.mpr (List.Nodup.filter _ (cellList_nodup g))
  have hc3 : ∀ r c : ℤ, g.valid r c →
      -1 ≤ nget g (fun r c => numInflowing g fd r c) r c := by
    intro r c hv
    rw [hng _ _ hv.1, numInflowing_valid g fd hv]
    omega
  have hc4 : ∀ r c : ℤ, g.valid r c →
      nget g (fun r c => numInflowing g fd r c) r c = 0 →
      (r, c) ∈ (((cellList g).filter fun p =>
        numInflowing g fd p.1 p.2 = 0).reverse) := by
    intro r c hv hz
    rw [List.mem_reverse, List.mem_filter]
    refine ⟨mem_cellList hv.1, ?_⟩
    rw [decide_eq_true_iff]
    rw [hng _ _ hv.1] at hz
    exact hz
  have hc5 : ∀ r c : ℤ, g.valid r c →
      nget g (fun r c => numInflowing g fd r c) r c
        + (if nget g (fun r c => numInflowing g fd r c) r c < 0 then 1 else 0)
        + (((contribCells fd r c).filter fun i =>
            decide (nget g (fun r c => numInflowing g fd r c)
              (r + dyT i) (c + dxT i) < 0)).length : ℤ)
        = ((contribCells fd r c).length : ℤ) := by
    intro r c hv
    rw [hng _ _ hv.1, numInflowing_valid g fd hv, hfilternil r c]
    rw [if_neg (by omega : ¬ ((contribCells fd r c).length : ℤ) < 0)]
    simp
  have hc6 : ∀ r c : ℤ, g.valid r c →
      oget g (fun _ _ => (1 : ℚ)) r c
        = 1 + (((contribCells fd r c).filter fun i =>
            decide (nget g (fun r c => numInflowing g fd r c)
              (r + dyT i) (c + dxT i) < 0)).map fun i =>
            oget g (fun _ _ => (1 : ℚ)) (r + dyT i) (c + dxT i)).sum := by
    intro r c hv
    rw [hfilternil r c, hacc1 r c hv.1]
    simp
  have hc7 : ∀ r c : ℤ, g.valid r c →
      1 ≤ oget g (fun _ _ => (1 : ℚ)) r c := by
    intro r c hv
    rw [hacc1 r c hv.1]
  have hc8 : ∀ r c : ℤ, g.inB r c → ¬ g.valid r c →
      nget g (fun r c => numInflowing g fd r c) r c = -1 := by
    intro r c hB hnv
    rw [hng _ _ hB]
    unfold numInflowing
    rw [if_neg (fun hne => hnv ((Grid.get_ne_iff g _ _).mp hne))]
  exact ⟨hc1, hc2, hc3, hc4, hc5, hc6, hc7, hc8⟩

lemma length_flatMap_pairs {α : Type} (n m : ℕ) (f : ℕ → ℕ → α) :
    ((List.range n).flatMap fun r => (List.range m).map (f r)).length
      = n * m := by
  induction n with
  | zero => simp
  | succ k ih =>
    rw [List.range_succ, List.flatMap_append, List.length_append, ih]
    rw [List.flatMap_cons, List.flatMap_nil, List.append_nil,
      List.length_map, List.length_range]
    ring

lemma cellList_length (g : Grid) :
    (cellList g).length = g.rows.toNat * g.cols.toNat :=
  length_flatMap_pairs g.rows.toNat g.cols.toNat _

lemma unpopped_le (g : Grid) (st : AccState) :
    unpoppedCount g st ≤ g.rows.toNat * g.cols.toNat := by
  unfold unpoppedCount
  calc _ ≤ (cellList g).length := List.length_filter_le _ _
  _ = _ := cellList_length g

lemma list_exists_max {α : Type} (l : List α) (f : α → ℚ) (h : l ≠ []) :
    ∃ a ∈ l, ∀ b ∈ l, f b ≤ f a := by
  induction l with
  | nil => exact absurd rfl h
  | cons a l' ih =>
    cases l' with
    | nil =>
      refine ⟨a, List.mem_cons_self _ _, ?_⟩
      intro b hb
      rcases List.mem_cons.mp hb with h' | h'
      · rw [h']
      · cases h'
    | cons a2 l'' =>
      obtain ⟨m, hm, hmax⟩ := ih (by simp)
      by_cases hc : f m ≤ f a
      · refine ⟨a, List.mem_cons_self _ _, ?_⟩
        intro b hb
        rcases List.mem_cons.mp hb with h' | h'
        · rw [h']
        · exact le_trans (hmax b h') hc
      · refine ⟨m, List.mem_cons_of_mem _ hm, ?_⟩
        intro b hb
        rcases List.mem_cons.mp hb with h' | h'
        · rw [h']; exact le_of_not_le hc
        · exact hmax b h'

lemma exists_not_of_filter_lt {α : Type} (l : List α) (p : α → Bool)
    (h : (l.filter p).length < l.length) : ∃ x ∈ l, p x = false := by
  by_contra hc
  push_neg at hc
  have heq : l.filter p = l := List.filter_eq_self.mpr fun a ha => by
    cases hpa : p a with
    | false => exact absurd hpa (hc a ha)
    | true => rfl
  rw [heq] at h
  omega

/-- When the stack has drained, every valid cell has been popped. -/
lemma all_popped (g : Grid) (fd : ℤ → ℤ → ℤ) (hfd : FdOk g fd)
    (st : AccState) (hinv : AccInv g fd st) (hempty : st.stack = []) :
    ∀ r c : ℤ, g.valid r c → nget g st.ninf r c < 0 := by
  obtain ⟨h1, h2, h3, h4, h5, h6, h7, h8⟩ := hinv
  by_contra hcon
  push_neg at hcon
  obtain ⟨r, c, hv, hge⟩ := hcon
  set S := (cellList g).filter fun p =>
    decide (g.valid p.1 p.2) && decide (0 ≤ nget g st.ninf p.1 p.2) with hS
  have hrcS : (r, c) ∈ S := by
    rw [hS, List.mem_filter]
    exact ⟨mem_cellList hv.1, by
      rw [Bool.and_eq_true, decide_eq_true_iff, decide_eq_true_iff]
      exact ⟨hv, hge⟩⟩
  have hSne : S ≠ [] := fun h' => by rw [h'] at hrcS; cases hrcS
  obtain ⟨m, hmS, hmax⟩ := list_exists_max S (fun p => g.get p.1 p.2) hSne
  rw [hS, List.mem_filter, Bool.and_eq_true, decide_eq_true_iff,
    decide_eq_true_iff] at hmS
  have hmv : g.valid m.1 m.2 := hmS.2.1
  have hmge : (0 : ℤ) ≤ nget g st.ninf m.1 m.2 := hmS.2.2
  have hmne : nget g st.ninf m.1 m.2 ≠ 0 := by
    intro h0
    have hmm := h4 m.1 m.2 hmv h0
    rw [hempty] at hmm
    cases hmm
  have h5m := h5 m.1 m.2 hmv
  rw [if_neg (by omega : ¬ nget g st.ninf m.1 m.2 < 0)] at h5m
  have hlt : (((contribCells fd m.1 m.2).filter fun i =>
      decide (nget g st.ninf (m.1 + dyT i) (m.2 + dxT i) < 0)).length)
      < (contribCells fd m.1 m.2).length := by omega
  obtain ⟨i, hi, hifalse⟩ := exists_not_of_filter_lt _ _ hlt
  rw [decide_eq_false_iff_not] at hifalse
  obtain ⟨hnv, hlow⟩ := contrib_valid g fd hfd hi
  have hnS : (m.1 + dyT i, m.2 + dxT i) ∈ S := by
    rw [hS, List.mem_filter]
    refine ⟨mem_cellList hnv.1, ?_⟩
    rw [Bool.and_eq_true, decide_eq_true_iff, decide_eq_true_iff]
    refine ⟨hnv, ?_⟩
    show (0 : ℤ) ≤ nget g st.ninf (m.1 + dyT i) (m.2 + dxT i)
    omega
  have := hmax _ hnS
  exact absurd hlow (not_lt.mpr this)

/-- The drained accumulation state satisfies the exact upstream recurrence
at every valid cell, and every accumulation value is at least one. -/
lemma accLoop_final (g : Grid) (fd : ℤ → ℤ → ℤ) (hfd : FdOk g fd) :
    ∀ r c : ℤ, g.valid r c →
      oget g (accLoop g fd (accFuel g) (accInit g fd)).acc r c
        = 1 + ((contribCells fd r c).map fun i =>
            oget g (accLoop g fd (accFuel g) (accInit g fd)).acc
              (r + dyT i) (c + dxT i)).sum ∧
      1 ≤ oget g (accLoop g fd (accFuel g) (accInit g fd)).acc r c := by
  have hle := unpopped_le g (accInit g fd)
  have hcnt : unpoppedCount g (accInit g fd) < accFuel g := by
    unfold accFuel
    omega
  obtain ⟨hempty, hfinal⟩ := accLoop_done g fd hfd (accFuel g)
    (accInit g fd).stack (accInit g fd).acc (accInit g fd).ninf
    (accInit_inv g fd hfd) hcnt
  have hempty' : (accLoop g fd (accFuel g) (accInit g fd)).stack = [] :=
    hempty
  have hfinal' : AccInv g fd (accLoop g fd (accFuel g) (accInit g fd)) :=
    hfinal
  have hpop := all_popped g fd hfd _ hfinal' hempty'
  obtain ⟨f1, f2, f3, f4, f5, f6, f7, f8⟩ := hfinal'
  intro r c hv
  have hfull : ((contribCells fd r c).filter fun i =>
      decide (nget g (accLoop g fd (accFuel g) (accInit g fd)).ninf
        (r + dyT i) (c + dxT i) < 0))
      = contribCells fd r c := by
    rw [List.filter_eq_self]
    intro i hi
    rw [decide_eq_true_iff]
    exact hpop _ _ (contrib_valid g fd hfd hi).1
  have h6r := f6 r c hv
  rw [hfull] at h6r
  exact ⟨h6r, f7 r c hv⟩

lemma flowDir_FdOk (g : Grid) (csx csy diag : ℚ)
    (hx : 0 < csx) (hy : 0 < csy) (hd : 0 < diag) :
    FdOk g (flowDir g csx csy diag) := fun r c k hk =>
  flowDir_lower g csx csy diag hx hy hd r c k hk

/-- `cell_area` selected by the output type (`d8_flow_accum.rs` lines
433, 460-465): true cell area except in `cells` mode. -/
def cellAreaOf (csx csy : ℚ) (outType : String) : ℚ :=
  if outType = "cells" then 1 else csx * csy

/-- The constant `flow_widths` entries selected by the output type (lines
449-465): `1.0` in `cells`/`ca` modes, the average cell size otherwise;
deliberately identical for all 8 directions. -/
def flowWidthsT (csx csy : ℚ) (outType : String) (i : ℕ) : ℚ :=
  if outType = "cells" ∨ outType = "ca" then 1 else (csx + csy) / 2

/-- The non-log unit-conversion pass (`d8_flow_accum.rs` lines 492-516):
nodata cells pass through as nodata, all other cells are scaled by
`cell_area / flow_widths[dir]` (or `flow_widths[3]` for pits). -/
def convertNoLog (g : Grid) (fd : ℤ → ℤ → ℤ) (acc : ℤ → ℤ → ℚ)
    (csx csy : ℚ) (outType : String) : ℤ → ℤ → ℚ :=
  fun r c =>
    if g.get r c = g.nodata then g.nodata
    else
      let d := fd r c
      if 0 ≤ d then
        oget g acc r c * cellAreaOf csx csy outType
          / flowWidthsT csx csy outType d.toNat
      else
        oget g acc r c * cellAreaOf csx csy outType
          / flowWidthsT csx csy outType 3

/-- The complete `D8FlowAccumulation` output raster (without the optional
log transform): direction pass, inflow counts, stack propagation, then
unit conversion. -/
def d8AccumOutputNoLog (g : Grid) (csx csy diag : ℚ) (outType : String) :
    ℤ → ℤ → ℚ :=
  convertNoLog g (flowDir g csx csy diag) (accRun g csx csy diag).acc
    csx csy outType

lemma convertNoLog_valid (g : Grid) (fd : ℤ → ℤ → ℤ) (acc : ℤ → ℤ → ℚ)
    (csx csy : ℚ) (outType : String) {r c : ℤ} (hv : g.valid r c) :
    convertNoLog g fd acc csx csy outType r c
      = oget g acc r c * cellAreaOf csx csy outType
          / flowWidthsT csx csy outType 3 := by
  unfold convertNoLog
  rw [if_neg ((Grid.get_ne_iff g r c).mpr hv)]
  dsimp only
  split_ifs <;> rfl

lemma accRun_eq (g : Grid) (csx csy diag : ℚ) :
    accRun g csx csy diag = accLoop g (flowDir g csx csy diag) (accFuel g)
      (accInit g (flowDir g csx csy diag)) := rfl

/-- A 1×1 grid exercised by the C3 counterexample. -/
def gridC3 : Grid where
  rows := 1
  cols := 1
  z := fun _ _ => 7
  nodata := -999

set_option maxRecDepth 4000 in
/-- **C3 counterexample.** In `specific contributing area` mode with cell
size `1/2 × 1/2`, the single valid cell of a 1×1 grid gets accumulation
`1/2 < 1.0`, refuting `accumulation(c) ≥ 1.0` for the tool's output in
general.  (The diagonal length parameter is immaterial on a 1×1 grid; it
is passed as `3/4` here.) -/
theorem c3_counterexample :
    gridC3.valid 0 0 ∧
    d8AccumOutputNoLog gridC3 (1/2) (1/2) (3/4) "sca" 0 0 = 1/2 ∧
    ¬ (1 : ℚ) ≤ d8AccumOutputNoLog gridC3 (1/2) (1/2) (3/4) "sca" 0 0 := by
  refine ⟨by decide, ?_, ?_⟩ <;> with_unfolding_all decide

lemma cellAreaOf_cells (csx csy : ℚ) : cellAreaOf csx csy "cells" = 1 := by
  unfold cellAreaOf
  rw [if_pos rfl]

lemma cellAreaOf_ca (csx csy : ℚ) : cellAreaOf csx csy "ca" = csx * csy := by
  unfold cellAreaOf
  rw [if_neg (by decide)]

lemma cellAreaOf_sca (csx csy : ℚ) : cellAreaOf csx csy "sca" = csx * csy := by
  unfold cellAreaOf
  rw [if_neg (by decide)]

lemma flowWidthsT_cells (csx csy : ℚ) (i : ℕ) :
    flowWidthsT csx csy "cells" i = 1 := by
  unfold flowWidthsT
  rw [if_pos (Or.inl rfl)]

lemma flowWidthsT_ca (csx csy : ℚ) (i : ℕ) :
    flowWidthsT csx csy "ca" i = 1 := by
  unfold flowWidthsT
  rw [if_pos (Or.inr rfl)]

lemma flowWidthsT_sca (csx csy : ℚ) (i : ℕ) :
    flowWidthsT csx csy "sca" i = (csx + csy) / 2 := by
  unfold flowWidthsT
  rw [if_neg (by decide)]

lemma cellAreaOf_pos {csx csy : ℚ} (hx : 0 < csx) (hy : 0 < csy)
    (outType : String) : 0 < cellAreaOf csx csy outType := by
  unfold cellAreaOf
  split_ifs
  · norm_num
  · positivity

lemma flowWidthsT_pos {csx csy : ℚ} (hx : 0 < csx) (hy : 0 < csy)
    (outType : String) (i : ℕ) : 0 < flowWidthsT csx csy outType i := by
  unfold flowWidthsT
  split_ifs
  · norm_num
  · positivity

/-- **C3 (amended).** For every valid cell of the flow-accumulation output
(without log transform), the output value is at least the sum of the
output values of the neighbours whose D8 direction targets the cell; and
in `cells` output mode the value is moreover at least `1.0`.  (As stated
in the claim, `accumulation(c) ≥ 1.0` fails for the `ca`/`sca` unit
conversions with sub-unit cell sizes: see the counterexample.) -/
theorem c3_accumulation_inequalities (g : Grid) (csx csy diag : ℚ)
    (hx : 0 < csx) (hy : 0 < csy) (hd : 0 < diag) (outType : String)
    (r c : ℤ) (hv : g.valid r c) :
    ((contribCells (flowDir g csx csy diag) r c).map fun i =>
        d8AccumOutputNoLog g csx csy diag outType (r + dyT i) (c + dxT i)).sum
      ≤ d8AccumOutputNoLog g csx csy diag outType r c ∧
    (outType = "cells" →
      1 ≤ d8AccumOutputNoLog g csx csy diag outType r c) := by
  have hfd := flowDir_FdOk g csx csy diag hx hy hd
  have hfix : ∀ r' c' : ℤ, g.valid r' c' →
      oget g (accRun g csx csy diag).acc r' c'
        = 1 + ((contribCells (flowDir g csx csy diag) r' c').map fun i =>
            oget g (accRun g csx csy diag).acc (r' + dyT i) (c' + dxT i)).sum ∧
      1 ≤ oget g (accRun g csx csy diag).acc r' c' :=
    accLoop_final g (flowDir g csx csy diag) hfd
  have hout : ∀ r' c' : ℤ, g.valid r' c' →
      d8AccumOutputNoLog g csx csy diag outType r' c'
        = oget g (accRun g csx csy diag).acc r' c'
            * cellAreaOf csx csy outType / flowWidthsT csx csy outType 3 := by
    intro r' c' hv'
    unfold d8AccumOutputNoLog
    rw [convertNoLog_valid g _ _ csx csy outType hv']
  obtain ⟨hrec, hge1⟩ := hfix r c hv
  constructor
  · have hmapped : ((contribCells (flowDir g csx csy diag) r c).map fun i =>
        d8AccumOutputNoLog g csx csy diag outType (r + dyT i) (c + dxT i))
        = ((contribCells (flowDir g csx csy diag) r c).map fun i =>
          oget g (accRun g csx csy diag).acc (r + dyT i) (c + dxT i)
            * (cellAreaOf csx csy outType
              / flowWidthsT csx csy outType 3)) := by
      refine List.map_congr_left fun i hi => ?_
      rw [hout _ _ (contrib_valid g _ hfd hi).1]
      ring
    rw [hmapped, List.sum_map_mul_right, hout r c hv]
    have hK : 0 ≤ cellAreaOf csx csy outType / flowWidthsT csx csy outType 3 :=
      le_of_lt (div_pos (cellAreaOf_pos hx hy _) (flowWidthsT_pos hx hy _ _))
    have hsumle : ((contribCells (flowDir g csx csy diag) r c).map fun i =>
        oget g (accRun g csx csy diag).acc (r + dyT i) (c + dxT i)).sum
        ≤ oget g (accRun g csx csy diag).acc r c := by
      linarith [hrec]
    have hshape : oget g (accRun g csx csy diag).acc r c
        * cellAreaOf csx csy outType / flowWidthsT csx csy outType 3
        = oget g (accRun g csx csy diag).acc r c
        * (cellAreaOf csx csy outType / flowWidthsT csx csy outType 3) := by
      ring
    rw [hshape]
    exact mul_le_mul_of_nonneg_right hsumle hK
  · intro hcells
    rw [hout r c hv, hcells, cellAreaOf_cells, flowWidthsT_cells]
    rw [mul_one, div_one]
    exact hge1

/-- Witness for the amended C3 at a concrete grid and cell. -/
theorem c3_accumulation_inequalities_witness :
    ((contribCells (flowDir gridW 1 1 (3/2)) 0 0).map fun i =>
        d8AccumOutputNoLog gridW 1 1 (3/2) "cells" (0 + dyT i) (0 + dxT i)).sum
      ≤ d8AccumOutputNoLog gridW 1 1 (3/2) "cells" 0 0 ∧
    ("cells" = "cells" →
      1 ≤ d8AccumOutputNoLog gridW 1 1 (3/2) "cells" 0 0) :=
  c3_accumulation_inequalities gridW 1 1 (3/2) (by norm_num) (by norm_num)
    (by norm_num) "cells" 0 0 (by decide)

/-- **C5.** For identical input run through the three `out_type` modes
(without log transform), every valid cell satisfies, exactly:
`catchment_area(c) = cells(c) × (dx × dy)` and
`specific_contributing_area(c) = catchment_area(c) / avg(dx, dy)`. -/
theorem c5_unit_conversion_relations (g : Grid) (csx csy diag : ℚ)
    (r c : ℤ) (hv : g.valid r c) :
    d8AccumOutputNoLog g csx csy diag "ca" r c
      = d8AccumOutputNoLog g csx csy diag "cells" r c * (csx * csy) ∧
    d8AccumOutputNoLog g csx csy diag "sca" r c
      = d8AccumOutputNoLog g csx csy diag "ca" r c / ((csx + csy) / 2) := by
  unfold d8AccumOutputNoLog
  rw [convertNoLog_valid g _ _ csx csy "ca" hv,
    convertNoLog_valid g _ _ csx csy "cells" hv,
    convertNoLog_valid g _ _ csx csy "sca" hv,
    cellAreaOf_cells, cellAreaOf_ca, cellAreaOf_sca,
    flowWidthsT_cells, flowWidthsT_ca, flowWidthsT_sca]
  constructor
  · ring
  · ring

/-- Witness for C5 at a concrete grid and cell. -/
theorem c5_unit_conversion_relations_witness :
    d8AccumOutputNoLog gridW 1 1 (3/2) "ca" 0 0
      = d8AccumOutputNoLog gridW 1 1 (3/2) "cells" 0 0 * (1 * 1) ∧
    d8AccumOutputNoLog gridW 1 1 (3/2) "sca" 0 0
      = d8AccumOutputNoLog gridW 1 1 (3/2) "ca" 0 0 / ((1 + 1) / 2) :=
  c5_unit_conversion_relations gridW 1 1 (3/2) 0 0 (by decide)

/-- Rust's `str::contains`, over the character lists. -/
def strContains (s pat : String) : Bool :=
  decide (pat.toList <:+: s.toList)

/-- The declared default value of the `--out_type` tool parameter
(`d8_flow_accum.rs` line 86). -/
def outTypeDeclaredDefault : String := "cells"

/-- Normalisation of an `--out_type` value (`d8_flow_accum.rs` lines
209-215): anything containing "specific" or "sca" means specific
contributing area; anything containing "cells" means cells; everything
else means catchment area. -/
def classifyOutType (v : String) : String :=
  if strContains v "specific" || strContains v "sca" then "sca"
  else if strContains v "cells" then "cells"
  else "ca"

/-- Whether an argument token is the `--out_type` flag, after the quote
stripping and `=`-splitting of the argument loop (lines 179-203). -/
def isOutTypeFlag (arg : String) : Prop :=
  ((((arg.replace "\"" "").replace "\x27" "").splitOn "=").getD 0 "").toLower
      = "-out_type"
    ∨ ((((arg.replace "\"" "").replace "\x27" "").splitOn "=").getD 0
      "").toLower = "--out_type"

instance (arg : String) : Decidable (isOutTypeFlag arg) := by
  unfold isOutTypeFlag; infer_instance

/-- One step of the argument scan for the `--out_type` flag
(`d8_flow_accum.rs` lines 202-215); `next` is `args[i + 1]`. -/
def outTypeStep (cur : String) (arg : String) (next : Option String) :
    String :=
  let arg2 := (arg.replace "\"" "").replace "\x27" ""
  let vec := arg2.splitOn "="
  if (vec.getD 0 "").toLower = "-out_type"
      ∨ (vec.getD 0 "").toLower = "--out_type" then
    classifyOutType
      (if vec.length > 1 then (vec.getD 1 "").toLower
       else (next.getD "").toLower)
  else cur

/-- The argument loop, restricted to its effect on `out_type`. -/
def parseOutTypeAux : String → List String → String
  | cur, [] => cur
  | cur, a :: rest => parseOutTypeAux (outTypeStep cur a rest.head?) rest

/-- The `out_type` selection after argument parsing; the run-time initial
value is `"sca"` (`d8_flow_accum.rs` line 168), not the declared
parameter default. -/
def parseOutType (args : List String) : String := parseOutTypeAux "sca" args

lemma parseOutTypeAux_no_flag (args : List String) (cur : String)
    (h : ∀ a ∈ args, ¬ isOutTypeFlag a) :
    parseOutTypeAux cur args = cur := by
  induction args generalizing cur with
  | nil => rfl
  | cons a rest ih =>
    rw [parseOutTypeAux]
    have hstep : outTypeStep cur a rest.head? = cur := by
      have hna := h a (List.mem_cons_self _ _)
      unfold isOutTypeFlag at hna
      unfold outTypeStep
      dsimp only
      rw [if_neg hna]
    rw [hstep]
    exact ih _ fun a' ha' => h a' (List.mem_cons_of_mem _ ha')

/-- **C10.** When `D8FlowAccumulation` is invoked without any `--out_type`
argument, the unit conversion applied is the specific-contributing-area
one (multiply by the true cell area and divide by the average of the x
and y cell sizes), not the `cells` conversion declared as the parameter's
default value. -/
theorem c10_default_out_type (g : Grid) (csx csy diag : ℚ)
    (args : List String) (hnone : ∀ a ∈ args, ¬ isOutTypeFlag a)
    (r c : ℤ) (hv : g.valid r c) :
    parseOutType args = "sca" ∧
    parseOutType args ≠ outTypeDeclaredDefault ∧
    d8AccumOutputNoLog g csx csy diag (parseOutType args) r c
      = oget g (accRun g csx csy diag).acc r c * (csx * csy)
        / ((csx + csy) / 2) := by
  have hparse : parseOutType args = "sca" :=
    parseOutTypeAux_no_flag args "sca" hnone
  refine ⟨hparse, by rw [hparse]; decide, ?_⟩
  rw [hparse]
  unfold d8AccumOutputNoLog
  rw [convertNoLog_valid g _ _ csx csy "sca" hv, cellAreaOf_sca,
    flowWidthsT_sca]

/-- Witness for C10 with a concrete argument list carrying no
`--out_type` flag. -/
theorem c10_default_out_type_witness :
    parseOutType ["--dem=DEM.tif", "-o=output.tif", "--log=false"] = "sca" ∧
    parseOutType ["--dem=DEM.tif", "-o=output.tif", "--log=false"]
      ≠ outTypeDeclaredDefault ∧
    d8AccumOutputNoLog gridW 1 1 (3/2)
      (parseOutType ["--dem=DEM.tif", "-o=output.tif", "--log=false"]) 0 0
      = oget gridW (accRun gridW 1 1 (3/2)).acc 0 0 * (1 * 1)
        / ((1 + 1) / 2) :=
  c10_default_out_type gridW 1 1 (3/2)
    ["--dem=DEM.tif", "-o=output.tif", "--log=false"]
    (by intro a ha; fin_cases ha <;> with_unfolding_all decide)
    0 0 (by decide)

lemma flowDir_nodata (g : Grid) (csx csy diag : ℚ) {r c : ℤ}
    (h : g.get r c = g.nodata) : flowDir g csx csy diag r c = -1 := by
  unfold flowDir
  rw [if_pos h]

/-- On a grid whose elevation depends only on the row and strictly
decreases row by row, with uniform cell size, every cell that has a row
below it drains straight down (direction code 3). -/
lemma c6_flowDir_inner (g : Grid) (f : ℤ → ℚ) (s diag : ℚ)
    (hzf : ∀ r c : ℤ, g.z r c = f r)
    (hval : ∀ r : ℤ, 0 ≤ r → r < g.rows → f r ≠ g.nodata)
    (hdec : ∀ r : ℤ, 0 ≤ r → r + 1 < g.rows → f (r + 1) < f r)
    (hs : 0 < s) (hsd : s < diag)
    (r c : ℤ) (hB : g.inB r c) (hr : r + 1 < g.rows) :
    flowDir g s s diag r c = 3 := by
  have hd0 : 0 < diag := lt_trans hs hsd
  have hget : ∀ r' c' : ℤ, g.inB r' c' → g.get r' c' = f r' := by
    intro r' c' h'
    unfold Grid.get
    rw [if_pos h', hzf]
  have hgr : g.get r c = f r := hget r c hB
  have hvc : g.valid r c := ⟨hB, by rw [hzf]; exact hval r hB.1 hB.2.1⟩
  have hΔ : 0 < f r - f (r + 1) := sub_pos.mpr (hdec r hB.1 hr)
  have hB1 := hB.1
  have hB2 := hB.2.1
  have hB3 := hB.2.2.1
  have hB4 := hB.2.2.2
  have hnb3B : g.inB (r + dyT 3) (c + dxT 3) := by
    rw [show dyT 3 = 1 by decide, show dxT 3 = 0 by decide]
    exact ⟨by omega, by omega, by omega, by omega⟩
  have hnb3 : nbValid g r c 3 := by
    unfold nbValid
    rw [hget _ _ hnb3B, show dyT 3 = 1 by decide]
    exact hval (r + 1) (by omega) (by omega)
  have hslope3 : slopeTo g s s diag r c 3 = (f r - f (r + 1)) / s := by
    unfold slopeTo
    rw [hgr, hget _ _ hnb3B, show dyT 3 = 1 by decide]
    rfl
  have hpos3 : 0 < slopeTo g s s diag r c 3 := by
    rw [hslope3]
    exact div_pos hΔ hs
  have hdiaglt : (f r - f (r + 1)) / diag < (f r - f (r + 1)) / s := by
    rw [div_lt_div_iff hd0 hs]
    have := mul_lt_mul_of_pos_left hsd hΔ
    linarith
  have hstrict : ∀ i : ℕ, i < 8 → i ≠ 3 → nbValid g r c i →
      slopeTo g s s diag r c i < (f r - f (r + 1)) / s := by
    intro i hi8 hne hnv
    have hnB : g.inB (r + dyT i) (c + dxT i) :=
      ((Grid.get_ne_iff g _ _).mp hnv).1
    have hslope : slopeTo g s s diag r c i
        = (f r - f (r + dyT i)) / gridLen s s diag i := by
      unfold slopeTo
      rw [hgr, hget _ _ hnB]
    have hup : ∀ len : ℚ, 0 < len → dyT i = -1 →
        (f r - f (r + dyT i)) / len < (f r - f (r + 1)) / s := by
      intro len hlen hdy
      have h0 : 0 ≤ r + dyT i := hnB.1
      have hfr : f (r + dyT i + 1) < f (r + dyT i) :=
        hdec (r + dyT i) h0 (by rw [hdy]; omega)
      have hidx : r + dyT i + 1 = r := by rw [hdy]; ring
      rw [hidx] at hfr
      have hneg : (f r - f (r + dyT i)) / len < 0 :=
        div_neg_of_neg_of_pos (by linarith) hlen
      exact lt_trans hneg (div_pos hΔ hs)
    have hflat : ∀ len : ℚ, 0 < len → dyT i = 0 →
        (f r - f (r + dyT i)) / len < (f r - f (r + 1)) / s := by
      intro len hlen hdy
      rw [hdy]
      simp only [add_zero, sub_self, zero_div]
      exact div_pos hΔ hs
    have hdown : dyT i = 1 → gridLen s s diag i = diag →
        (f r - f (r + dyT i)) / gridLen s s diag i
          < (f r - f (r + 1)) / s := by
      intro hdy hlen
      rw [hdy, hlen]
      exact hdiaglt
    rw [hslope]
    interval_cases i
    · exact hup diag hd0 (by decide)
    · exact hflat s hs (by decide)
    · exact hdown (by decide) rfl
    · exact absurd rfl hne
    · exact hdown (by decide) rfl
    · exact hflat s hs (by decide)
    · exact hup diag hd0 (by decide)
    · exact hup s hs (by decide)
  obtain ⟨hsp1, hsp2⟩ := flowDir_resolves g s s diag hs hs hd0 r c hvc
  rcases hsp1 with hneg | ⟨k, hk8, hkd, hknv, _, _, hall, _⟩
  · exfalso
    have := (hsp2.mp hneg) 3 (by norm_num) hnb3
    exact absurd hpos3 (not_lt.mpr this)
  · by_cases hk3 : k = 3
    · rw [hkd, hk3]
      norm_num
    · exfalso
      have hlt := hstrict k hk8 hk3 hknv
      have hle := hall 3 (by norm_num) hnb3
      rw [hslope3] at hle
      exact absurd (lt_of_le_of_lt hle hlt) (lt_irrefl _)
  

/-- On the same grid family, every cell of the last row is a pit. -/
lemma c6_flowDir_bottom (g : Grid) (f : ℤ → ℚ) (s diag : ℚ)
    (hzf : ∀ r c : ℤ, g.z r c = f r)
    (hval : ∀ r : ℤ, 0 ≤ r → r < g.rows → f r ≠ g.nodata)
    (hdec : ∀ r : ℤ, 0 ≤ r → r + 1 < g.rows → f (r + 1) < f r)
    (hs : 0 < s) (hsd : s < diag)
    (r c : ℤ) (hB : g.inB r c) (hr : r + 1 = g.rows) :
    flowDir g s s diag r c = -1 := by
  have hd0 : 0 < diag := lt_trans hs hsd
  have hget : ∀ r' c' : ℤ, g.inB r' c' → g.get r' c' = f r' := by
    intro r' c' h'
    unfold Grid.get
    rw [if_pos h', hzf]
  have hgr : g.get r c = f r := hget r c hB
  have hvc : g.valid r c := ⟨hB, by rw [hzf]; exact hval r hB.1 hB.2.1⟩
  obtain ⟨hsp1, hsp2⟩ := flowDir_resolves g s s diag hs hs hd0 r c hvc
  refine hsp2.mpr ?_
  intro i hi8 hnv
  have hnB : g.inB (r + dyT i) (c + dxT i) :=
    ((Grid.get_ne_iff g _ _).mp hnv).1
  have hslope : slopeTo g s s diag r c i
      = (f r - f (r + dyT i)) / gridLen s s diag i := by
    unfold slopeTo
    rw [hgr, hget _ _ hnB]
  have hlen : 0 < gridLen s s diag i := gridLen_pos hs hs hd0 hi8
  have hdyB : r + dyT i < g.rows := hnB.2.1
  have hdy8 : dyT i = -1 ∨ dyT i = 0 ∨ dyT i = 1 := by
    interval_cases i <;> simp [dyT]
  rcases hdy8 with hdy | hdy | hdy
  · have h0 : 0 ≤ r + dyT i := hnB.1
    have hfr : f (r + dyT i + 1) < f (r + dyT i) :=
      hdec (r + dyT i) h0 (by rw [hdy]; omega)
    have hidx : r + dyT i + 1 = r := by rw [hdy]; ring
    rw [hidx] at hfr
    rw [hslope]
    exact le_of_lt (div_neg_of_neg_of_pos (by linarith) hlen)
  · rw [hslope, hdy]
    simp only [add_zero, sub_self, zero_div, le_refl]
  · exfalso
    rw [hdy] at hdyB
    omega

lemma c6_fd_range (g : Grid) (f : ℤ → ℚ) (s diag : ℚ)
    (hzf : ∀ r c : ℤ, g.z r c = f r)
    (hval : ∀ r : ℤ, 0 ≤ r → r < g.rows → f r ≠ g.nodata)
    (hdec : ∀ r : ℤ, 0 ≤ r → r + 1 < g.rows → f (r + 1) < f r)
    (hs : 0 < s) (hsd : s < diag) (r c : ℤ) :
    flowDir g s s diag r c = 3 ∨ flowDir g s s diag r c = -1 := by
  by_cases hB : g.inB r c
  · by_cases hr : r + 1 < g.rows
    · exact Or.inl (c6_flowDir_inner g f s diag hzf hval hdec hs hsd r c hB hr)
    · have hr1 : r + 1 = g.rows := by
        have := hB.2.1
        omega
      exact Or.inr (c6_flowDir_bottom g f s diag hzf hval hdec hs hsd r c hB hr1)
  · refine Or.inr (flowDir_nodata g s s diag ?_)
    unfold Grid.get
    rw [if_neg hB]

lemma c6_contrib (g : Grid) (f : ℤ → ℚ) (s diag : ℚ)
    (hzf : ∀ r c : ℤ, g.z r c = f r)
    (hval : ∀ r : ℤ, 0 ≤ r → r < g.rows → f r ≠ g.nodata)
    (hdec : ∀ r : ℤ, 0 ≤ r → r + 1 < g.rows → f (r + 1) < f r)
    (hs : 0 < s) (hsd : s < diag) (r c : ℤ) (hB : g.inB r c) :
    contribCells (flowDir g s s diag) r c = if 1 ≤ r then [7] else [] := by
  have hB1 := hB.1
  have hB2 := hB.2.1
  have hB3 := hB.2.2.1
  have hB4 := hB.2.2.2
  have hrange := c6_fd_range g f s diag hzf hval hdec hs hsd
  have hP : ∀ i : ℕ, i < 7 →
      (decide (flowDir g s s diag (r + dyT i) (c + dxT i) = inflowT i))
        = false := by
    intro i hi
    rw [decide_eq_false_iff_not]
    rcases hrange (r + dyT i) (c + dxT i) with h3 | hm1
    · rw [h3]
      interval_cases i <;> decide
    · rw [hm1]
      interval_cases i <;> decide
  have h7 : flowDir g s s diag (r + dyT 7) (c + dxT 7)
      = (if 1 ≤ r then 3 else -1) := by
    rw [show dyT 7 = -1 by decide, show dxT 7 = 0 by decide, add_zero]
    by_cases h1r : 1 ≤ r
    · rw [if_pos h1r]
      exact c6_flowDir_inner g f s diag hzf hval hdec hs hsd (r + -1) c
        ⟨by omega, by omega, by omega, by omega⟩ (by omega)
    · rw [if_neg h1r]
      refine flowDir_nodata g s s diag ?_
      unfold Grid.get
      rw [if_neg]
      intro hcB
      have := hcB.1
      omega
  unfold contribCells
  rw [show List.range 8 = [0, 1, 2, 3, 4, 5, 6, 7] from rfl]
  by_cases h1r : 1 ≤ r
  · have h7t : (decide (flowDir g s s diag (r + dyT 7) (c + dxT 7)
        = inflowT 7)) = true := by
      rw [decide_eq_true_iff, h7, if_pos h1r]
      decide
    rw [if_pos h1r]
    simp only [List.filter_cons, List.filter_nil,
      hP 0 (by norm_num), hP 1 (by norm_num), hP 2 (by norm_num),
      hP 3 (by norm_num), hP 4 (by norm_num), hP 5 (by norm_num),
      hP 6 (by norm_num), h7t, Bool.false_eq_true, if_false, if_true]
  · have h7f : (decide (flowDir g s s diag (r + dyT 7) (c + dxT 7)
        = inflowT 7)) = false := by
      rw [decide_eq_false_iff_not, h7, if_neg h1r]
      decide
    rw [if_neg h1r]
    simp only [List.filter_cons, List.filter_nil,
      hP 0 (by norm_num), hP 1 (by norm_num), hP 2 (by norm_num),
      hP 3 (by norm_num), hP 4 (by norm_num), hP 5 (by norm_num),
      hP 6 (by norm_num), h7f, Bool.false_eq_true, if_false]

lemma c6_acc (g : Grid) (f : ℤ → ℚ) (s diag : ℚ)
    (hzf : ∀ r c : ℤ, g.z r c = f r)
    (hval : ∀ r : ℤ, 0 ≤ r → r < g.rows → f r ≠ g.nodata)
    (hdec : ∀ r : ℤ, 0 ≤ r → r + 1 < g.rows → f (r + 1) < f r)
    (hs : 0 < s) (hsd : s < diag) :
    ∀ n : ℕ, ∀ c : ℤ, g.inB (n : ℤ) c →
      oget g (accRun g s s diag).acc (n : ℤ) c = (n : ℚ) + 1 := by
  have hd0 : 0 < diag := lt_trans hs hsd
  have hfd : FdOk g (flowDir g s s diag) := flowDir_FdOk g s s diag hs hs hd0
  intro n
  induction n with
  | zero =>
    intro c hB
    have hv : g.valid ((0 : ℕ) : ℤ) c :=
      ⟨hB, by rw [hzf]; exact hval _ hB.1 hB.2.1⟩
    have hrec := (accLoop_final g (flowDir g s s diag) hfd _ c hv).1
    rw [c6_contrib g f s diag hzf hval hdec hs hsd _ c hB] at hrec
    rw [if_neg (by norm_num : ¬ (1 : ℤ) ≤ ((0 : ℕ) : ℤ))] at hrec
    simp only [List.map_nil, List.sum_nil, add_zero] at hrec
    rw [accRun_eq, hrec]
    norm_num
  | succ n ih =>
    intro c hB
    have hB1 := hB.1
    have hB2 := hB.2.1
    have hB3 := hB.2.2.1
    have hB4 := hB.2.2.2
    have hv : g.valid (((n + 1 : ℕ)) : ℤ) c :=
      ⟨hB, by rw [hzf]; exact hval _ hB.1 hB.2.1⟩
    have hrec := (accLoop_final g (flowDir g s s diag) hfd _ c hv).1
    rw [c6_contrib g f s diag hzf hval hdec hs hsd _ c hB] at hrec
    rw [if_pos (by push_cast; omega : (1 : ℤ) ≤ ((n + 1 : ℕ) : ℤ))] at hrec
    simp only [List.map_cons, List.map_nil, List.sum_cons, List.sum_nil,
      add_zero] at hrec
    have hco : (((n + 1 : ℕ)) : ℤ) + dyT 7 = ((n : ℕ) : ℤ) := by
      rw [show dyT 7 = -1 by decide]
      push_cast
      ring
    have hco2 : c + dxT 7 = c := by
      rw [show dxT 7 = 0 by decide]
      ring
    rw [hco, hco2] at hrec
    have hBn : g.inB ((n : ℕ) : ℤ) c := ⟨by omega, by push_cast at hB2 ⊢; omega,
      hB3, hB4⟩
    have hihn := ih c hBn
    rw [accRun_eq] at hihn
    rw [accRun_eq, hrec, hihn]
    push_cast
    ring

/-- **C6 (amended).** On an N×M elevation grid that is strictly decreasing
row by row with uniform cell size, every cell that has a row below it gets
direction code 3 (the cell directly below), every cell of the LAST row is
a pit (direction −1, since it has no lower neighbour), and the
accumulation at row r (in `cells` output mode) equals `r + 1` for every
cell, including the last row. -/
theorem c6_row_decreasing_scenario (g : Grid) (f : ℤ → ℚ) (s diag : ℚ)
    (hzf : ∀ r c : ℤ, g.z r c = f r)
    (hval : ∀ r : ℤ, 0 ≤ r → r < g.rows → f r ≠ g.nodata)
    (hdec : ∀ r : ℤ, 0 ≤ r → r + 1 < g.rows → f (r + 1) < f r)
    (hs : 0 < s) (hsd : s < diag) (r c : ℤ) (hB : g.inB r c) :
    (r + 1 < g.rows → flowDir g s s diag r c = 3) ∧
    (r + 1 = g.rows → flowDir g s s diag r c = -1) ∧
    d8AccumOutputNoLog g s s diag "cells" r c = (r : ℚ) + 1 := by
  refine ⟨fun hr => c6_flowDir_inner g f s diag hzf hval hdec hs hsd r c hB hr,
    fun hr => c6_flowDir_bottom g f s diag hzf hval hdec hs hsd r c hB hr, ?_⟩
  have hv : g.valid r c := ⟨hB, by rw [hzf]; exact hval r hB.1 hB.2.1⟩
  unfold d8AccumOutputNoLog
  rw [convertNoLog_valid g _ _ s s "cells" hv, cellAreaOf_cells,
    flowWidthsT_cells, mul_one, div_one]
  lift r to ℕ using hB.1 with n hn
  rw [c6_acc g f s diag hzf hval hdec hs hsd n c hB]
  push_cast
  ring

/-- A 2×1 grid strictly decreasing row by row, used for C6. -/
def gridC6 : Grid where
  rows := 2
  cols := 1
  z := fun r _ => if r = 0 then 1 else 0
  nodata := -999

set_option maxRecDepth 8000 in
/-- **C6 counterexample.** On a strictly row-decreasing 2×1 grid with
uniform unit cell size, the bottom cell's direction is −1 (a pit), not the
code 3 of "the cell directly below it": the claim's direction clause fails
for last-row cells. -/
theorem c6_counterexample :
    gridC6.valid 1 0 ∧ gridC6.z 1 0 < gridC6.z 0 0 ∧
    flowDir gridC6 1 1 (3/2) 1 0 = -1 ∧
    flowDir gridC6 1 1 (3/2) 1 0 ≠ 3 := by
  with_unfolding_all decide

/-- Witness for the amended C6 at a concrete grid and cell. -/
theorem c6_row_decreasing_scenario_witness :
    (((0 : ℤ) + 1 < gridC6.rows → flowDir gridC6 1 1 (3/2) 0 0 = 3) ∧
     ((0 : ℤ) + 1 = gridC6.rows → flowDir gridC6 1 1 (3/2) 0 0 = -1) ∧
     d8AccumOutputNoLog gridC6 1 1 (3/2) "cells" 0 0 = ((0 : ℤ) : ℚ) + 1) :=
  c6_row_decreasing_scenario gridC6 (fun r => if r = 0 then 1 else 0) 1 (3/2)
    (fun _ _ => rfl)
    (by
      intro r h1 h2
      dsimp only
      split_ifs <;> with_unfolding_all decide)
    (by
      intro r h1 h2
      have hr0 : r = 0 := by
        have : gridC6.rows = 2 := rfl
        omega
      subst hr0
      norm_num)
    (by norm_num) (by norm_num) 0 0 (by decide)

/-- The `DepthInSink` output-raster initialiser
`(i32::min_value() + 1) as f64` (`depth_in_sink.rs` lines 213-214). -/
def bgInit : ℚ := -2147483647

/-- State of the `DepthInSink` filling phases: the FIFO region-growing
queue, the min-heap content of the priority flood (modelled as the list
of pending `(priority, row, col)` entries) and the output raster. -/
structure DsState where
  queue : List (ℤ × ℤ)
  heap : List (ℚ × ℤ × ℤ)
  out : ℤ → ℤ → ℚ

/-- The initial FIFO queue: the virtual frame one cell beyond each edge
of the raster (`depth_in_sink.rs` lines 226-241). -/
def dsInitQueue (g : Grid) : List (ℤ × ℤ) :=
  ((List.range g.rows.toNat).flatMap fun r : ℕ =>
    [(((r : ℕ) : ℤ), (-1 : ℤ)), (((r : ℕ) : ℤ), g.cols)]) ++
  ((List.range g.cols.toNat).flatMap fun c : ℕ =>
    [((-1 : ℤ), ((c : ℕ) : ℤ)), (g.rows, ((c : ℕ) : ℤ))])

/-- One neighbour examination of the FIFO region-growing loop
(`depth_in_sink.rs` lines 261-281): a neighbour still holding the
background value is set to nodata and re-queued if its input is nodata,
otherwise its input elevation is copied and it seeds the min-heap. -/
def fifoNbr (g : Grid) (rc : ℤ × ℤ) (st : DsState) (n : ℕ) : DsState :=
  let rn := rc.1 + dyT n
  let cn := rc.2 + dxT n
  if oget g st.out rn cn = bgInit then
    if g.get rn cn = g.nodata then
      { st with out := oset st.out rn cn g.nodata,
                queue := st.queue ++ [(rn, cn)] }
    else
      { st with out := oset st.out rn cn (g.get rn cn),
                heap := st.heap ++ [(g.get rn cn, rn, cn)] }
  else st

/-- The FIFO region-growing loop (`depth_in_sink.rs` lines 257-290),
fuel-bounded. -/
def fifoLoop (g : Grid) : ℕ → DsState → DsState
  | 0, st => st
  | fuel + 1, st =>
    match st.queue with
    | [] => st
    | rc :: rest =>
      fifoLoop g fuel
        ((List.range 8).foldl (fifoNbr g rc) { st with queue := rest })

/-- Extraction of a minimal-priority entry from the heap content,
earliest entry winning ties; returns it with the remaining entries. -/
def popMin : List (ℚ × ℤ × ℤ) → Option ((ℚ × ℤ × ℤ) × List (ℚ × ℤ × ℤ))
  | [] => none
  | x :: xs =>
    match popMin xs with
    | none => some (x, [])
    | some (y, ys) => if x.1 ≤ y.1 then some (x, xs) else some (y, x :: ys)

/-- One neighbour examination of the priority-flood loop
(`depth_in_sink.rs` lines 298-320): a background neighbour with valid
input is filled to `max(input, zout)` and pushed, a background neighbour
with nodata input is set to nodata and not pushed. -/
def floodNbr (g : Grid) (rc : ℤ × ℤ) (zout : ℚ) (st : DsState) (n : ℕ) :
    DsState :=
  let rn := rc.1 + dyT n
  let cn := rc.2 + dxT n
  if oget g st.out rn cn = bgInit then
    if g.get rn cn ≠ g.nodata then
      let v := if g.get rn cn < zout then zout else g.get rn cn
      { st with out := oset st.out rn cn v,
                heap := st.heap ++ [(v, rn, cn)] }
    else
      { st with out := oset st.out rn cn g.nodata }
  else st

/-- The priority-flood loop (`depth_in_sink.rs` lines 293-330),
fuel-bounded: pop a minimal cell, re-read its output value, examine its
8 neighbours. -/
def floodLoop (g : Grid) : ℕ → DsState → DsState
  | 0, st => st
  | fuel + 1, st =>
    match popMin st.heap with
    | none => st
    | some (cell, rest) =>
      floodLoop g fuel
        ((List.range 8).foldl
          (floodNbr g (cell.2.1, cell.2.2) (oget g st.out cell.2.1 cell.2.2))
          { st with heap := rest })

/-- The initial `DepthInSink` state: frame queue, empty heap, output
raster holding the background value everywhere. -/
def dsInit (g : Grid) : DsState :=
  ⟨dsInitQueue g, [], fun _ _ => bgInit⟩

/-- The filled raster after both phases of `DepthInSink`. -/
def dsFloodOut (g : Grid) (fuel1 fuel2 : ℕ) : ℤ → ℤ → ℚ :=
  (floodLoop g fuel2 (fifoLoop g fuel1 (dsInit g))).out

/-- The final `DepthInSink` output raster (`depth_in_sink.rs` lines
332-355): the positive fill depth where the filled value exceeds the
input, the caller-selected background (0 under `--zero_background`, else
nodata) on other valid cells, nodata on nodata cells. -/
def dsOut (g : Grid) (fuel1 fuel2 : ℕ) (zeroBackground : Bool) :
    ℤ → ℤ → ℚ :=
  fun r c =>
    if g.get r c < dsFloodOut g fuel1 fuel2 r c then
      dsFloodOut g fuel1 fuel2 r c - g.get r c
    else if g.get r c ≠ g.nodata then
      (if zeroBackground then 0 else g.nodata)
    else g.nodata

/-- The filling-phase invariant: a valid cell's output is still the
background value or at least its elevation, and a nodata cell's output
is still the background value or nodata. -/
def OutInv (g : Grid) (f : ℤ → ℤ → ℚ) : Prop :=
  (∀ r c : ℤ, g.valid r c → f r c = bgInit ∨ g.get r c ≤ f r c) ∧
  (∀ r c : ℤ, g.inB r c → g.get r c = g.nodata →
    f r c = bgInit ∨ f r c = g.nodata)

lemma outInv_oset (g : Grid) {f : ℤ → ℤ → ℚ} (h : OutInv g f)
    (rn cn : ℤ) (v : ℚ)
    (hv : (g.get rn cn = g.nodata ∧ v = g.nodata) ∨
      (g.get rn cn ≠ g.nodata ∧ g.get rn cn ≤ v)) :
    OutInv g (oset f rn cn v) := by
  constructor
  · intro r c hvr
    unfold oset
    by_cases hp : r = rn ∧ c = cn
    · obtain ⟨hp1, hp2⟩ := hp
      subst hp1
      subst hp2
      rw [if_pos ⟨rfl, rfl⟩]
      rcases hv with ⟨hnd, _⟩ | ⟨_, hle⟩
      · exact absurd hnd ((Grid.get_ne_iff g r c).mpr hvr)
      · exact Or.inr hle
    · rw [if_neg hp]
      exact h.1 r c hvr
  · intro r c hB hnd
    unfold oset
    by_cases hp : r = rn ∧ c = cn
    · obtain ⟨hp1, hp2⟩ := hp
      subst hp1
      subst hp2
      rw [if_pos ⟨rfl, rfl⟩]
      rcases hv with ⟨_, hvn⟩ | ⟨hne, _⟩
      · exact Or.inr hvn
      · exact absurd hnd hne
    · rw [if_neg hp]
      exact h.2 r c hB hnd

lemma fifoNbr_inv (g : Grid) (rc : ℤ × ℤ) {st : DsState}
    (h : OutInv g st.out) (n : ℕ) : OutInv g ((fifoNbr g rc st n).out) := by
  unfold fifoNbr
  dsimp only
  split_ifs with h1 h2
  · exact outInv_oset g h _ _ _ (Or.inl ⟨h2, rfl⟩)
  · exact outInv_oset g h _ _ _ (Or.inr ⟨h2, le_refl _⟩)
  · exact h

lemma floodNbr_inv (g : Grid) (rc : ℤ × ℤ) (zout : ℚ) {st : DsState}
    (h : OutInv g st.out) (n : ℕ) :
    OutInv g ((floodNbr g rc zout st n).out) := by
  unfold floodNbr
  dsimp only
  by_cases h1 : oget g st.out (rc.1 + dyT n) (rc.2 + dxT n) = bgInit
  · rw [if_pos h1]
    by_cases h2 : g.get (rc.1 + dyT n) (rc.2 + dxT n) ≠ g.nodata
    · rw [if_pos h2]
      refine outInv_oset g h _ _ _ (Or.inr ⟨h2, ?_⟩)
      by_cases hlt : g.get (rc.1 + dyT n) (rc.2 + dxT n) < zout
      · rw [if_pos hlt]
        exact le_of_lt hlt
      · rw [if_neg hlt]
    · rw [if_neg h2]
      exact outInv_oset g h _ _ _ (Or.inl ⟨not_not.mp h2, rfl⟩)
  · rw [if_neg h1]
    exact h

lemma foldl_fifoNbr_inv (g : Grid) (rc : ℤ × ℤ) :
    ∀ (l : List ℕ) (st : DsState), OutInv g st.out →
      OutInv g ((l.foldl (fifoNbr g rc) st).out) := by
  intro l
  induction l with
  | nil => intro st h; exact h
  | cons a l ih =>
    intro st h
    rw [List.foldl_cons]
    exact ih _ (fifoNbr_inv g rc h a)

lemma foldl_floodNbr_inv (g : Grid) (rc : ℤ × ℤ) (zout : ℚ) :
    ∀ (l : List ℕ) (st : DsState), OutInv g st.out →
      OutInv g ((l.foldl (floodNbr g rc zout) st).out) := by
  intro l
  induction l with
  | nil => intro st h; exact h
  | cons a l ih =>
    intro st h
    rw [List.foldl_cons]
    exact ih _ (floodNbr_inv g rc zout h a)

lemma fifoLoop_inv (g : Grid) :
    ∀ (fuel : ℕ) (st : DsState), OutInv g st.out →
      OutInv g ((fifoLoop g fuel st).out) := by
  intro fuel
  induction fuel with
  | zero => intro st h; exact h
  | succ fuel ih =>
    intro st h
    unfold fifoLoop
    cases hq : st.queue with
    | nil => exact h
    | cons rc rest => exact ih _ (foldl_fifoNbr_inv g rc _ _ h)

lemma floodLoop_inv (g : Grid) :
    ∀ (fuel : ℕ) (st : DsState), OutInv g st.out →
      OutInv g ((floodLoop g fuel st).out) := by
  intro fuel
  induction fuel with
  | zero => intro st h; exact h
  | succ fuel ih =>
    intro st h
    unfold floodLoop
    cases hq : popMin st.heap with
    | none => exact h
    | some p => exact ih _ (foldl_floodNbr_inv g _ _ _ _ h)

lemma dsFloodOut_inv (g : Grid) (fuel1 fuel2 : ℕ) :
    OutInv g (dsFloodOut g fuel1 fuel2) := by
  unfold dsFloodOut
  refine floodLoop_inv g fuel2 _ (fifoLoop_inv g fuel1 _ ?_)
  constructor
  · intro r c _; exact Or.inl rfl
  · intro r c _ _; exact Or.inl rfl

/-- The step-level fill rule of the priority flood: a background
neighbour with valid input is filled to the maximum of its input
elevation and the popped cell's output value. -/
lemma floodNbr_max (g : Grid) (rc : ℤ × ℤ) (zout : ℚ) (st : DsState)
    (n : ℕ)
    (h1 : oget g st.out (rc.1 + dyT n) (rc.2 + dxT n) = bgInit)
    (h2 : g.get (rc.1 + dyT n) (rc.2 + dxT n) ≠ g.nodata) :
    (floodNbr g rc zout st n).out (rc.1 + dyT n) (rc.2 + dxT n)
      = max (g.get (rc.1 + dyT n) (rc.2 + dxT n)) zout := by
  unfold floodNbr
  dsimp only
  rw [if_pos h1, if_pos h2]
  dsimp only
  unfold oset
  rw [if_pos ⟨rfl, rfl⟩]
  by_cases hlt : g.get (rc.1 + dyT n) (rc.2 + dxT n) < zout
  · rw [if_pos hlt, max_eq_right (le_of_lt hlt)]
  · rw [if_neg hlt, max_eq_left (le_of_not_lt hlt)]

/-- A 5×5 grid whose valid outer ring encloses a nodata ring which in
turn encloses a single valid centre cell: an interior island the flood
can never reach. -/
def gridI : Grid where
  rows := 5
  cols := 5
  z := fun r c =>
    if r = 0 ∨ r = 4 ∨ c = 0 ∨ c = 4 then 1
    else if r = 2 ∧ c = 2 then 5 else -999
  nodata := -999

/-- The virtual frame one cell beyond the 5×5 raster: exactly the cells
the initial FIFO queue holds. -/
def FrameP (p : ℤ × ℤ) : Prop :=
  ((p.2 = -1 ∨ p.2 = 5) ∧ 0 ≤ p.1 ∧ p.1 ≤ 4) ∨
  ((p.1 = -1 ∨ p.1 = 5) ∧ 0 ≤ p.2 ∧ p.2 ≤ 4)

instance (p : ℤ × ℤ) : Decidable (FrameP p) := by
  unfold FrameP
  exact inferInstance

/-- The valid outer ring of `gridI`. -/
def OuterP (r c : ℤ) : Prop :=
  0 ≤ r ∧ r ≤ 4 ∧ 0 ≤ c ∧ c ≤ 4 ∧ (r = 0 ∨ r = 4 ∨ c = 0 ∨ c = 4)

/-- The island invariant on `gridI`: the queue holds only frame cells,
the heap holds only outer-ring cells, and the enclosed centre cell still
holds the background value. -/
def IslandInv (st : DsState) : Prop :=
  (∀ p ∈ st.queue, FrameP p) ∧
  (∀ e ∈ st.heap, OuterP e.2.1 e.2.2) ∧
  st.out 2 2 = bgInit

lemma offset_bounds (n : ℕ) :
    (-1 ≤ dxT n ∧ dxT n ≤ 1) ∧ (-1 ≤ dyT n ∧ dyT n ≤ 1) := by
  by_cases h : n < 8
  · interval_cases n <;> decide
  · unfold dxT dyT
    rw [List.getD_eq_default, List.getD_eq_default]
    · exact ⟨⟨by norm_num, by norm_num⟩, by norm_num, by norm_num⟩
    · simp only [List.length_cons, List.length_nil]
      omega
    · simp only [List.length_cons, List.length_nil]
      omega

lemma gridI_get_outer {r c : ℤ} (h : OuterP r c) : gridI.get r c = 1 := by
  obtain ⟨h1, h2, h3, h4, h5⟩ := h
  have hB : gridI.inB r c := by
    refine ⟨h1, ?_, h3, ?_⟩
    · show r < (5 : ℤ)
      omega
    · show c < (5 : ℤ)
      omega
  unfold Grid.get
  rw [if_pos hB]
  show (if r = 0 ∨ r = 4 ∨ c = 0 ∨ c = 4 then (1 : ℚ)
    else if r = 2 ∧ c = 2 then 5 else -999) = 1
  rw [if_pos h5]

lemma gridI_valid_cases {r c : ℤ} (hB : gridI.inB r c)
    (hne : gridI.get r c ≠ gridI.nodata) : OuterP r c ∨ (r = 2 ∧ c = 2) := by
  have h2 : r < (5 : ℤ) := hB.2.1
  have h4 : c < (5 : ℤ) := hB.2.2.2
  by_cases houter : r = 0 ∨ r = 4 ∨ c = 0 ∨ c = 4
  · exact Or.inl ⟨hB.1, by omega, hB.2.2.1, by omega, houter⟩
  · by_cases hctr : r = 2 ∧ c = 2
    · exact Or.inr hctr
    · exfalso
      apply hne
      unfold Grid.get
      rw [if_pos hB]
      show (if r = 0 ∨ r = 4 ∨ c = 0 ∨ c = 4 then (1 : ℚ)
        else if r = 2 ∧ c = 2 then 5 else -999) = gridI.nodata
      rw [if_neg houter, if_neg hctr]
      rfl

lemma gridI_nodata_ne_bg : gridI.nodata ≠ bgInit := by
  with_unfolding_all decide

lemma frame_nbr (rc : ℤ × ℤ) (hrc : FrameP rc) (n : ℕ) :
    ¬ gridI.inB (rc.1 + dyT n) (rc.2 + dxT n) ∨
      OuterP (rc.1 + dyT n) (rc.2 + dxT n) := by
  obtain ⟨⟨hx1, hx2⟩, hy1, hy2⟩ := offset_bounds n
  by_cases hB : gridI.inB (rc.1 + dyT n) (rc.2 + dxT n)
  · right
    have b2 : rc.1 + dyT n < (5 : ℤ) := hB.2.1
    have b4 : rc.2 + dxT n < (5 : ℤ) := hB.2.2.2
    have b1 := hB.1
    have b3 := hB.2.2.1
    unfold OuterP
    rcases hrc with ⟨hc | hc, hr1, hr2⟩ | ⟨hc | hc, hr1, hr2⟩ <;> omega
  · exact Or.inl hB

lemma outer_nbr_center (rc : ℤ × ℤ) (ho : OuterP rc.1 rc.2) (n : ℕ) :
    ¬ ((2 : ℤ) = rc.1 + dyT n ∧ (2 : ℤ) = rc.2 + dxT n) := by
  obtain ⟨⟨hx1, hx2⟩, hy1, hy2⟩ := offset_bounds n
  obtain ⟨h1, h2, h3, h4, h5⟩ := ho
  rcases h5 with h5 | h5 | h5 | h5 <;> omega

lemma island_fifoNbr (rc : ℤ × ℤ) (hrc : FrameP rc) {st : DsState}
    (h : IslandInv st) (n : ℕ) : IslandInv (fifoNbr gridI rc st n) := by
  unfold fifoNbr
  dsimp only
  by_cases h1 : oget gridI st.out (rc.1 + dyT n) (rc.2 + dxT n) = bgInit
  · rcases frame_nbr rc hrc n with hOOB | hOut
    · exfalso
      unfold oget at h1
      rw [if_neg hOOB] at h1
      exact gridI_nodata_ne_bg h1
    · rw [if_pos h1,
        if_neg (by rw [gridI_get_outer hOut]; exact (by with_unfolding_all decide : (1 : ℚ) ≠ gridI.nodata))]
      refine ⟨h.1, ?_, ?_⟩
      · intro e he
        rw [List.mem_append] at he
        rcases he with he | he
        · exact h.2.1 e he
        · rw [List.mem_singleton] at he
          subst he
          exact hOut
      · show oset st.out (rc.1 + dyT n) (rc.2 + dxT n) _ 2 2 = bgInit
        unfold oset
        rw [if_neg (by
          intro hp
          obtain ⟨hp1, hp2⟩ := hp
          obtain ⟨o1, o2, o3, o4, o5⟩ := hOut
          obtain ⟨⟨hx1, hx2⟩, hy1, hy2⟩ := offset_bounds n
          rcases o5 with o5 | o5 | o5 | o5 <;> omega)]
        exact h.2.2
  · rw [if_neg h1]
    exact h

lemma island_floodNbr (rc : ℤ × ℤ) (ho : OuterP rc.1 rc.2) (zout : ℚ)
    {st : DsState} (h : IslandInv st) (n : ℕ) :
    IslandInv (floodNbr gridI rc zout st n) := by
  unfold floodNbr
  by_cases h1 : oget gridI st.out (rc.1 + dyT n) (rc.2 + dxT n) = bgInit
  · rw [if_pos h1]
    have hB : gridI.inB (rc.1 + dyT n) (rc.2 + dxT n) := by
      by_contra hnB
      unfold oget at h1
      rw [if_neg hnB] at h1
      exact gridI_nodata_ne_bg h1
    by_cases h2 : gridI.get (rc.1 + dyT n) (rc.2 + dxT n) ≠ gridI.nodata
    · rw [if_pos h2]
      have hOut : OuterP (rc.1 + dyT n) (rc.2 + dxT n) := by
        rcases gridI_valid_cases hB h2 with hOut | hctr
        · exact hOut
        · exact absurd ⟨hctr.1.symm, hctr.2.symm⟩ (outer_nbr_center rc ho n)
      refine ⟨h.1, ?_, ?_⟩
      · intro e he
        rw [List.mem_append] at he
        rcases he with he | he
        · exact h.2.1 e he
        · rw [List.mem_singleton] at he
          subst he
          exact hOut
      · show oset st.out (rc.1 + dyT n) (rc.2 + dxT n) _ 2 2 = bgInit
        unfold oset
        rw [if_neg (outer_nbr_center rc ho n)]
        exact h.2.2
    · rw [if_neg h2]
      refine ⟨h.1, h.2.1, ?_⟩
      show oset st.out (rc.1 + dyT n) (rc.2 + dxT n) _ 2 2 = bgInit
      unfold oset
      rw [if_neg (by
        intro hp
        apply h2
        rw [← hp.1, ← hp.2]
        intro hctr
        exact (by with_unfolding_all decide : gridI.get 2 2 ≠ gridI.nodata) hctr)]
      exact h.2.2
  · rw [if_neg h1]
    exact h

lemma island_foldl_fifo (rc : ℤ × ℤ) (hrc : FrameP rc) :
    ∀ (l : List ℕ) (st : DsState), IslandInv st →
      IslandInv (l.foldl (fifoNbr gridI rc) st) := by
  intro l
  induction l with
  | nil => intro st h; exact h
  | cons a l ih =>
    intro st h
    rw [List.foldl_cons]
    exact ih _ (island_fifoNbr rc hrc h a)

lemma island_foldl_flood (rc : ℤ × ℤ) (ho : OuterP rc.1 rc.2) (zout : ℚ) :
    ∀ (l : List ℕ) (st : DsState), IslandInv st →
      IslandInv (l.foldl (floodNbr gridI rc zout) st) := by
  intro l
  induction l with
  | nil => intro st h; exact h
  | cons a l ih =>
    intro st h
    rw [List.foldl_cons]
    exact ih _ (island_floodNbr rc ho zout h a)

lemma popMin_mem :
    ∀ (l : List (ℚ × ℤ × ℤ)) (y : ℚ × ℤ × ℤ) (ys : List (ℚ × ℤ × ℤ)),
      popMin l = some (y, ys) → y ∈ l ∧ ∀ e ∈ ys, e ∈ l := by
  intro l
  induction l with
  | nil =>
    intro y ys h
    exact Option.noConfusion h
  | cons x xs ih =>
    intro y ys h
    unfold popMin at h
    cases hx : popMin xs with
    | none =>
      rw [hx] at h
      simp only [Option.some.injEq, Prod.mk.injEq] at h
      obtain ⟨hy, hys⟩ := h
      subst hy
      subst hys
      exact ⟨List.mem_cons_self x xs, by intro e he; cases he⟩
    | some p =>
      obtain ⟨y0, ys0⟩ := p
      rw [hx] at h
      dsimp only at h
      by_cases hle : x.1 ≤ y0.1
      · rw [if_pos hle] at h
        simp only [Option.some.injEq, Prod.mk.injEq] at h
        obtain ⟨hy, hys⟩ := h
        subst hy
        subst hys
        refine ⟨List.mem_cons_self x xs, ?_⟩
        intro e he
        exact List.mem_cons_of_mem x he
      · rw [if_neg hle] at h
        simp only [Option.some.injEq, Prod.mk.injEq] at h
        obtain ⟨hy, hys⟩ := h
        subst hy
        subst hys
        obtain ⟨hmem, hsub⟩ := ih y0 ys0 hx
        refine ⟨List.mem_cons_of_mem x hmem, ?_⟩
        intro e he
        rcases List.mem_cons.mp he with he | he
        · subst he
          exact List.mem_cons_self e xs
        · exact List.mem_cons_of_mem x (hsub e he)

lemma island_fifoLoop :
    ∀ (fuel : ℕ) (st : DsState), IslandInv st →
      IslandInv (fifoLoop gridI fuel st) := by
  intro fuel
  induction fuel with
  | zero => intro st h; exact h
  | succ fuel ih =>
    intro st h
    unfold fifoLoop
    cases hq : st.queue with
    | nil => exact h
    | cons rc rest =>
      refine ih _ (island_foldl_fifo rc ?_ _ _ ⟨?_, h.2.1, h.2.2⟩)
      · exact h.1 rc (hq ▸ List.mem_cons_self rc rest)
      · intro p hp
        exact h.1 p (hq ▸ List.mem_cons_of_mem rc hp)

lemma island_floodLoop :
    ∀ (fuel : ℕ) (st : DsState), IslandInv st →
      IslandInv (floodLoop gridI fuel st) := by
  intro fuel
  induction fuel with
  | zero => intro st h; exact h
  | succ fuel ih =>
    intro st h
    unfold floodLoop
    cases hq : popMin st.heap with
    | none => exact h
    | some p =>
      obtain ⟨cell, rest⟩ := p
      obtain ⟨hmem, hsub⟩ := popMin_mem st.heap cell rest hq
      refine ih _ (island_foldl_flood (cell.2.1, cell.2.2) ?_ _ _ _
        ⟨h.1, ?_, h.2.2⟩)
      · exact h.2.1 cell hmem
      · intro e he
        exact h.2.1 e (hsub e he)

/-- The enclosed centre of `gridI` still holds the background value after
both filling phases, for every fuel. -/
lemma island_center (fuel1 fuel2 : ℕ) :
    dsFloodOut gridI fuel1 fuel2 2 2 = bgInit := by
  have hinit : IslandInv (dsInit gridI) := by
    refine ⟨?_, ?_, rfl⟩
    · intro p hp
      have hall : ∀ q ∈ dsInitQueue gridI, FrameP q := by
        with_unfolding_all decide
      exact hall p hp
    · intro e he
      cases he
  exact (island_floodLoop fuel2 _ (island_fifoLoop fuel1 _ hinit)).2.2

/-- **C2 (amended).** After the priority-flood phase of `DepthInSink`,
every valid cell's filled elevation is greater than or equal to its
original elevation OR it still holds the untouched background value
`(i32::MIN + 1) as f64` (valid cells enclosed by interior nodata are
never resolved); each newly resolved valid neighbour's filled elevation
equals max(that neighbour's original elevation, the popped cell's filled
elevation). -/
theorem c2_priority_flood_invariant (g : Grid) (fuel1 fuel2 : ℕ)
    (r c : ℤ) (hv : g.valid r c) :
    (dsFloodOut g fuel1 fuel2 r c = bgInit ∨
      g.get r c ≤ dsFloodOut g fuel1 fuel2 r c) ∧
    (∀ (st : DsState) (zout : ℚ) (rc : ℤ × ℤ) (n : ℕ),
      oget g st.out (rc.1 + dyT n) (rc.2 + dxT n) = bgInit →
      g.get (rc.1 + dyT n) (rc.2 + dxT n) ≠ g.nodata →
      (floodNbr g rc zout st n).out (rc.1 + dyT n) (rc.2 + dxT n)
        = max (g.get (rc.1 + dyT n) (rc.2 + dxT n)) zout) :=
  ⟨(dsFloodOut_inv g fuel1 fuel2).1 r c hv,
   fun st zout rc n h1 h2 => floodNbr_max g rc zout st n h1 h2⟩

/-- **C2 counterexample.** On a 5×5 grid whose valid centre cell is
enclosed by an interior nodata ring, the priority flood never reaches
the centre: its filled value stays at the background initialiser
−2147483647, strictly below its elevation 5, refuting
`filled(c) ≥ elevation(c)` for every valid cell. -/
theorem c2_counterexample :
    gridI.valid 2 2 ∧
    dsFloodOut gridI 64 64 2 2 = bgInit ∧
    dsFloodOut gridI 64 64 2 2 < gridI.get 2 2 := by
  refine ⟨by with_unfolding_all decide, island_center 64 64, ?_⟩
  rw [island_center 64 64]
  with_unfolding_all decide

/-- Witness for the amended C2 at a concrete grid and cell. -/
theorem c2_priority_flood_invariant_witness :
    ((dsFloodOut gridI 64 64 0 0 = bgInit ∨
      gridI.get 0 0 ≤ dsFloodOut gridI 64 64 0 0) ∧
     (∀ (st : DsState) (zout : ℚ) (rc : ℤ × ℤ) (n : ℕ),
       oget gridI st.out (rc.1 + dyT n) (rc.2 + dxT n) = bgInit →
       gridI.get (rc.1 + dyT n) (rc.2 + dxT n) ≠ gridI.nodata →
       (floodNbr gridI rc zout st n).out (rc.1 + dyT n) (rc.2 + dxT n)
         = max (gridI.get (rc.1 + dyT n) (rc.2 + dxT n)) zout)) :=
  c2_priority_flood_invariant gridI 64 64 0 0 (by with_unfolding_all decide)

/-- **C8 (amended).** For every in-bounds cell of the `DepthInSink`
output: nodata input cells come out nodata (granted the background
initialiser does not exceed the nodata sentinel); every valid cell the
flood actually resolved has filled ≥ elevation, its output is the
strictly positive depth `filled − elevation` when that is positive, and
the caller-selected background value (0 under `--zero_background`, else
nodata) when the depth is zero. Valid cells never resolved (islands
inside interior nodata) are NOT covered: their output is the background
value even though `filled − elevation` is negative. -/
theorem c8_depth_output (g : Grid) (fuel1 fuel2 : ℕ) (zb : Bool)
    (hnd : bgInit ≤ g.nodata) (r c : ℤ) (hB : g.inB r c) :
    (g.get r c = g.nodata → dsOut g fuel1 fuel2 zb r c = g.nodata) ∧
    (g.valid r c → dsFloodOut g fuel1 fuel2 r c ≠ bgInit →
      g.get r c ≤ dsFloodOut g fuel1 fuel2 r c ∧
      (g.get r c < dsFloodOut g fuel1 fuel2 r c →
        dsOut g fuel1 fuel2 zb r c
          = dsFloodOut g fuel1 fuel2 r c - g.get r c ∧
        0 < dsOut g fuel1 fuel2 zb r c) ∧
      (dsFloodOut g fuel1 fuel2 r c = g.get r c →
        dsOut g fuel1 fuel2 zb r c = (if zb then (0 : ℚ) else g.nodata))) := by
  have hinv := dsFloodOut_inv g fuel1 fuel2
  constructor
  · intro hnod
    unfold dsOut
    rcases hinv.2 r c hB hnod with hbg | hnd2
    · rw [if_neg (by rw [hbg, hnod]; exact not_lt.mpr hnd),
        if_neg (not_not.mpr hnod)]
    · rw [if_neg (by rw [hnd2, hnod]; exact lt_irrefl _),
        if_neg (not_not.mpr hnod)]
  · intro hv hne
    have hle : g.get r c ≤ dsFloodOut g fuel1 fuel2 r c :=
      (hinv.1 r c hv).resolve_left hne
    refine ⟨hle, ?_, ?_⟩
    · intro hlt
      have he : dsOut g fuel1 fuel2 zb r c
          = dsFloodOut g fuel1 fuel2 r c - g.get r c := by
        unfold dsOut
        rw [if_pos hlt]
      exact ⟨he, he ▸ sub_pos.mpr hlt⟩
    · intro heq
      unfold dsOut
      rw [if_neg (by rw [heq]; exact lt_irrefl _),
        if_pos ((Grid.get_ne_iff g r c).mpr hv)]

/-- **C8 counterexample.** On the interior-island grid, the centre cell
is valid but never resolved: `filled − elevation` is negative there, yet
the reported output is the zero background — refuting
`depth(c) = filled(c) − elevation(c) ≥ 0` for every valid cell. -/
theorem c8_counterexample :
    gridI.valid 2 2 ∧
    dsFloodOut gridI 64 64 2 2 - gridI.get 2 2 < 0 ∧
    dsOut gridI 64 64 true 2 2 = 0 := by
  have hc := island_center 64 64
  refine ⟨by with_unfolding_all decide, ?_, ?_⟩
  · rw [hc]
    with_unfolding_all decide
  · unfold dsOut
    rw [hc]
    rw [if_neg (by with_unfolding_all decide : ¬ gridI.get 2 2 < bgInit),
      if_pos (by with_unfolding_all decide : gridI.get 2 2 ≠ gridI.nodata)]
    with_unfolding_all decide

/-- Witness for the amended C8 at a concrete grid and cell. -/
theorem c8_depth_output_witness :
    ((gridI.get 0 0 = gridI.nodata →
        dsOut gridI 64 64 true 0 0 = gridI.nodata) ∧
     (gridI.valid 0 0 → dsFloodOut gridI 64 64 0 0 ≠ bgInit →
       gridI.get 0 0 ≤ dsFloodOut gridI 64 64 0 0 ∧
       (gridI.get 0 0 < dsFloodOut gridI 64 64 0 0 →
         dsOut gridI 64 64 true 0 0
           = dsFloodOut gridI 64 64 0 0 - gridI.get 0 0 ∧
         0 < dsOut gridI 64 64 true 0 0) ∧
       (dsFloodOut gridI 64 64 0 0 = gridI.get 0 0 →
         dsOut gridI 64 64 true 0 0 = (if true then (0 : ℚ) else gridI.nodata)))) :=
  c8_depth_output gridI 64 64 true (by with_unfolding_all decide)
    0 0 (by decide)

/-- `f64::MIN`, the background initialiser of the
`DownslopeDistanceToStream` output raster
(`downslope_distance_to_stream.rs` line 289), as an exact rational. -/
def bgMin : ℚ := -((2 ^ 53 - 1) * 2 ^ 971)

/-- The D8 pointer of `DownslopeDistanceToStream`
(`downslope_distance_to_stream.rs` lines 250-280): identical scan to the
flow-accumulation resolver but nodata cells keep the `flow_nodata`
fill value `-2`. -/
def ddsFlowDir (g : Grid) (csx csy diag : ℚ) (r c : ℤ) : ℤ :=
  if g.get r c = g.nodata then -2
  else if (d8ScanCell g csx csy diag r c).maxSlope.isSome then
    ((d8ScanCell g csx csy diag r c).dir : ℤ)
  else -1

/-- Clamped read of the pointer grid: out-of-bounds reads return the
`Array2D` fill value `-2`. -/
def ddsFdRead (g : Grid) (csx csy diag : ℚ) (r c : ℤ) : ℤ :=
  if g.inB r c then ddsFlowDir g csx csy diag r c else -2

/-- State of the distance propagation: the LIFO stack of
`(row, col, stream_dist)` entries (top at the head) and the output
raster. -/
structure DdsState where
  stack : List (ℤ × ℤ × ℚ)
  out : ℤ → ℤ → ℚ

/-- Seeding of one cell (`downslope_distance_to_stream.rs` lines
299-316): stream cells get distance 0 and are stacked, DEM-nodata cells
get nodata, pit/pointer-nodata cells not on a stream are stacked with
nodata. -/
def ddsSeedCell (dem streams : Grid) (fd : ℤ → ℤ → ℤ) (st : DdsState)
    (rc : ℤ × ℤ) : DdsState :=
  let st1 :=
    if 0 < streams.get rc.1 rc.2 ∧ streams.get rc.1 rc.2 ≠ streams.nodata
    then
      { stack := (rc.1, rc.2, (0 : ℚ)) :: st.stack,
        out := oset st.out rc.1 rc.2 0 }
    else st
  let st2 :=
    if dem.get rc.1 rc.2 = dem.nodata then
      { st1 with out := oset st1.out rc.1 rc.2 dem.nodata }
    else st1
  if fd rc.1 rc.2 = -1 ∧ st2.out rc.1 rc.2 ≠ 0 then
    { stack := (rc.1, rc.2, dem.nodata) :: st2.stack,
      out := oset st2.out rc.1 rc.2 dem.nodata }
  else st2

/-- The full seeding pass in row-major order over the raster. -/
def ddsSeed (dem streams : Grid) (fd : ℤ → ℤ → ℤ) : DdsState :=
  (cellList dem).foldl (ddsSeedCell dem streams fd)
    ⟨[], fun _ _ => bgMin⟩

/-- One neighbour examination of the distance loop
(`downslope_distance_to_stream.rs` lines 344-363): an inflowing
neighbour still holding the background value gets the popped cell's
stream distance plus the traversed grid length (or nodata if that
distance is nodata) and is stacked. -/
def ddsNbr (dem : Grid) (fd : ℤ → ℤ → ℤ) (csx csy diag : ℚ)
    (rcd : ℤ × ℤ × ℚ) (st : DdsState) (n : ℕ) : DdsState :=
  let rn := rcd.1 + dyT n
  let cn := rcd.2.1 + dxT n
  if fd rn cn = inflowT n ∧ oget dem st.out rn cn = bgMin then
    if rcd.2.2 ≠ dem.nodata then
      { stack := (rn, cn, rcd.2.2 + gridLen csx csy diag n) :: st.stack,
        out := oset st.out rn cn (rcd.2.2 + gridLen csx csy diag n) }
    else
      { stack := (rn, cn, dem.nodata) :: st.stack,
        out := oset st.out rn cn dem.nodata }
  else st

/-- The fuel-bounded distance-propagation loop
(`downslope_distance_to_stream.rs` lines 339-364). -/
def ddsLoop (dem : Grid) (fd : ℤ → ℤ → ℤ) (csx csy diag : ℚ) :
    ℕ → DdsState → DdsState
  | 0, st => st
  | fuel + 1, st =>
    match st.stack with
    | [] => st
    | rcd :: rest =>
      ddsLoop dem fd csx csy diag fuel
        ((List.range 8).foldl (ddsNbr dem fd csx csy diag rcd)
          { st with stack := rest })

/-- The complete output raster of a successful
`DownslopeDistanceToStream` run. -/
def ddsOutput (dem streams : Grid) (csx csy diag : ℚ) (fuel : ℕ) :
    ℤ → ℤ → ℚ :=
  (ddsLoop dem (ddsFdRead dem csx csy diag) csx csy diag fuel
    (ddsSeed dem streams (ddsFdRead dem csx csy diag))).out

/-- The fatal error text returned on a raster-dimension mismatch
(`downslope_distance_to_stream.rs` lines 215-222). -/
def ddsErrMsg : String :=
  "The input files must have the same number of rows and columns and spatial extent."

/-- The `DownslopeDistanceToStream` run: the dimension check happens
first — before the pointer workers and before the output raster is
created — so a mismatch yields the single fatal error and no output. -/
def ddsRun (dem streams : Grid) (csx csy diag : ℚ) (fuel : ℕ) :
    Except String (ℤ → ℤ → ℚ) :=
  if dem.rows ≠ streams.rows ∨ dem.cols ≠ streams.cols then
    Except.error ddsErrMsg
  else
    Except.ok (ddsOutput dem streams csx csy diag fuel)

/-- **C9.** When the DEM and the streams raster of
`DownslopeDistanceToStream` differ in their number of rows or columns,
the run returns the single descriptive fatal error — before any worker
is spawned and before any output grid content is produced (the error
branch constructs no output). -/
theorem c9_dimension_mismatch_error (dem streams : Grid)
    (csx csy diag : ℚ) (fuel : ℕ)
    (h : dem.rows ≠ streams.rows ∨ dem.cols ≠ streams.cols) :
    ddsRun dem streams csx csy diag fuel = Except.error ddsErrMsg := by
  unfold ddsRun
  rw [if_pos h]

/-- Witness for C9 on a 2×2 DEM paired with a 1×1 streams raster. -/
theorem c9_dimension_mismatch_error_witness :
    ddsRun gridW gridC3 1 1 (3/2) 4 = Except.error ddsErrMsg :=
  c9_dimension_mismatch_error gridW gridC3 1 1 (3/2) 4
    (Or.inl (by decide))
